import Mathlib

/-!
# Voice-state reconciliation of `discord/guild.go`

A shallow embedding of `handleTrackedMembers`, `verifyVoiceStateChanges`,
`voiceStateChange` and `addFullUserToMap`, with the user record store as an explicit
value and the goroutines started by `go guildMemberUpdate(...)` collected in a list.
-/

namespace Discord

/-- Modelled from the spec: `game.Phase` is declared outside `guild.go`; the three
phases the delay table of `MakeDefaultDelays` is keyed by. -/
inductive Phase where
  | LOBBY
  | TASKS
  | DISCUSS
deriving DecidableEq, Repr

/-- Modelled from the spec: `game.UserData` is declared outside `guild.go`. A record holds
what its getters return: the identifier, the user name, the stored nickname
(`GetNickName`), whether it is linked to an in-game player (`IsLinked`), the aliveness
(`IsAlive`), the in-game player name (`GetPlayerName`) and the pending flag
(`IsPendingVoiceUpdate`). -/
structure UserData where
  userID : String
  userName : String
  nick : String
  linked : Bool
  alive : Bool
  playerName : String
  pendingVoiceUpdate : Bool
deriving DecidableEq, Repr

/-- The getter `IsLinked`. -/
def UserData.IsLinked (u : UserData) : Bool := u.linked

/-- The getter `IsAlive`. -/
def UserData.IsAlive (u : UserData) : Bool := u.alive

/-- The getter `GetPlayerName`. -/
def UserData.GetPlayerName (u : UserData) : String := u.playerName

/-- The getter `GetNickName`. -/
def UserData.GetNickName (u : UserData) : String := u.nick

/-- The getter `IsPendingVoiceUpdate`. -/
def UserData.IsPendingVoiceUpdate (u : UserData) : Bool := u.pendingVoiceUpdate

/-- The setter `SetPendingVoiceUpdate`, on the copy `GetUser` returned. -/
def UserData.SetPendingVoiceUpdate (u : UserData) (b : Bool) : UserData :=
  { u with pendingVoiceUpdate := b }

/-- Modelled from the spec: `game.MakeUserDataFromDiscordUser` is declared outside
`guild.go`; the record of a user seen for the first time is unlinked, not pending, and
carries the member's identifier, user name and nick. Its in-game name is empty: by the
comment at line 110 of `guild.go` the nickname test can only pass for a linked record. -/
def MakeUserDataFromDiscordUser (id userName nick : String) : UserData :=
  { userID := id, userName := userName, nick := nick, linked := false, alive := true,
    playerName := "", pendingVoiceUpdate := false }

/-- Modelled from the spec: `game.MakeMinimalUserData` is declared outside `guild.go`;
the minimal record holds the identifier only. -/
def MakeMinimalUserData (id : String) : UserData :=
  { userID := id, userName := "", nick := "", linked := false, alive := true,
    playerName := "", pendingVoiceUpdate := false }

/-- Modelled from the spec: `UserDataSet` is declared outside `guild.go`; the record store
is a map from user identifier to record. -/
abbrev UserDataSet := String → Option UserData

/-- The lookup `GetUser`; `none` is the error result. -/
def UserDataSet.GetUser (uds : UserDataSet) (userID : String) : Option UserData := uds userID

/-- The write `UpdateUserData(userID, data)`. -/
def UserDataSet.UpdateUserData (uds : UserDataSet) (userID : String) (data : UserData) :
    UserDataSet :=
  fun k => if k = userID then some data else uds k

/-- The write `AddFullUser(data)`, keyed by the record's own identifier. -/
def UserDataSet.AddFullUser (uds : UserDataSet) (data : UserData) : UserDataSet :=
  fun k => if k = data.userID then some data else uds k

/-- One entry of `g.VoiceStates`. -/
structure VoiceState where
  UserID : String
  ChannelID : String
  Mute : Bool
  Deaf : Bool
deriving DecidableEq, Repr

/-- One entry of `g.Members`: `v.User.ID`, `v.User.Username` and `v.Nick`. -/
structure Member where
  ID : String
  Username : String
  Nick : String
deriving DecidableEq, Repr

/-- The guild snapshot `s.State.Guild(guild.ID)` returns. -/
structure Guild where
  Members : List Member
  VoiceStates : List VoiceState
deriving DecidableEq, Repr

/-- The event `*discordgo.VoiceStateUpdate`. -/
structure VoiceStateUpdate where
  UserID : String
  ChannelID : String
  GuildID : String
  Mute : Bool
  Deaf : Bool
deriving DecidableEq, Repr

/-- The payload `UserPatchParameters{deaf, mute, nick}`. -/
structure UserPatchParameters where
  Deaf : Bool
  Mute : Bool
  Nick : String
deriving DecidableEq, Repr

/-- One `go guildMemberUpdate(dg, guildID, userID, params, delay)`. -/
structure Dispatch where
  guildID : String
  userID : String
  params : UserPatchParameters
  delay : Int
deriving DecidableEq, Repr

/-- The struct `GameDelays`: the map of maps, as association lists. -/
structure GameDelays where
  delays : List (Phase × List (Phase × Int))
deriving DecidableEq, Repr

/-- The table of `MakeDefaultDelays`. -/
def MakeDefaultDelays : GameDelays :=
  { delays :=
      [ (Phase.LOBBY, [(Phase.LOBBY, 0), (Phase.TASKS, 7), (Phase.DISCUSS, 0)]),
        (Phase.TASKS, [(Phase.LOBBY, 1), (Phase.TASKS, 0), (Phase.DISCUSS, 0)]),
        (Phase.DISCUSS, [(Phase.LOBBY, 6), (Phase.TASKS, 7), (Phase.DISCUSS, 0)]) ] }

/-- The lookup `gd.delays[origin][dest]`: a missing key reads as the zero value. -/
def GameDelays.GetDelay (gd : GameDelays) (origin dest : Phase) : Int :=
  match gd.delays.lookup origin with
  | none => 0
  | some row =>
    match row.lookup dest with
    | none => 0
    | some d => d

/-- The fields of `GuildState` the reconciliation reads and writes. `Tracking` is
`guild.Tracking.IsTracked`, `Phase` is `guild.AmongUsData.GetPhase()`, `VoiceRules` is
`guild.VoiceRules.GetVoiceState`; all three are declared outside `guild.go`. -/
structure GuildState where
  ID : String
  UserData : UserDataSet
  Tracking : String → Bool
  Delays : GameDelays
  Phase : Discord.Phase
  VoiceRules : Bool → Bool → Discord.Phase → Bool × Bool
  ApplyNicknames : Bool

/-- The search loop of `addFullUserToMap`: the first member with the identifier. -/
def findMember : List Member → String → Option Member
  | [], _ => none
  | v :: rest, userID => if v.ID = userID then some v else findMember rest userID

/-- The function `addFullUserToMap`, on the store. -/
def addFullUserToMap (uds : UserDataSet) (g : Guild) (userID : String) : UserDataSet :=
  match findMember g.Members userID with
  | some v => uds.AddFullUser (MakeUserDataFromDiscordUser v.ID v.Username v.Nick)
  | none => uds.AddFullUser (MakeMinimalUserData userID)

/-- The values `GetVoiceState(userData.IsAlive(), tracked && userData.IsLinked(), phase)`
for a record seen in channel `channelID`. -/
def GuildState.desired (guild : GuildState) (userData : Discord.UserData) (channelID : String) :
    Bool × Bool :=
  guild.VoiceRules userData.IsAlive (guild.Tracking channelID && userData.IsLinked) guild.Phase

/-- The nickname of the payload: the in-game name, or empty when `ApplyNicknames` is off. -/
def GuildState.nickFor (guild : GuildState) (userData : Discord.UserData) : String :=
  if !guild.ApplyNicknames then "" else userData.GetPlayerName

/-- One iteration of the loop of `verifyVoiceStateChanges`. -/
def verifyStep (guild : GuildState) (g : Guild) (uds : UserDataSet) (voiceState : VoiceState) :
    UserDataSet :=
  match uds.GetUser voiceState.UserID with
  | some userData =>
    let mute := (guild.desired userData voiceState.ChannelID).1
    let deaf := (guild.desired userData voiceState.ChannelID).2
    if userData.IsPendingVoiceUpdate && voiceState.Mute == mute && voiceState.Deaf == deaf then
      uds.UpdateUserData voiceState.UserID (userData.SetPendingVoiceUpdate false)
    else uds
  | none => addFullUserToMap uds g voiceState.UserID

/-- The store after `verifyVoiceStateChanges` on snapshot `g`. -/
def verifyStore (guild : GuildState) (g : Guild) : UserDataSet :=
  g.VoiceStates.foldl (verifyStep guild g) guild.UserData

/-- The function `verifyVoiceStateChanges`: the guild state afterwards. The snapshot `g` is
what `s.State.Guild(guild.ID)` returned, taken to have succeeded, and is also the value the
function returns. -/
def verifyVoiceStateChanges (guild : GuildState) (g : Guild) : GuildState :=
  { guild with UserData := verifyStore guild g }

/-- The variables the loop of `handleTrackedMembers` carries: the store, `updateMade`, and
the goroutines started so far. -/
structure LoopState where
  UserData : UserDataSet
  updateMade : Bool
  sent : List Dispatch

/-- One iteration of the loop of `handleTrackedMembers`. -/
def handleStep (guild : GuildState) (g : Guild) (delay : Int) (st : LoopState)
    (voiceState : VoiceState) : LoopState :=
  match st.UserData.GetUser voiceState.UserID with
  | some userData =>
    let shouldMute := (guild.desired userData voiceState.ChannelID).1
    let shouldDeaf := (guild.desired userData voiceState.ChannelID).2
    let nick := guild.nickFor userData
    if shouldMute != voiceState.Mute || shouldDeaf != voiceState.Deaf
        || (nick != "" && userData.GetNickName != userData.GetPlayerName) then
      if !userData.IsPendingVoiceUpdate then
        { UserData := st.UserData.UpdateUserData voiceState.UserID
            (userData.SetPendingVoiceUpdate true)
          updateMade := true
          sent := st.sent ++
            [{ guildID := guild.ID, userID := voiceState.UserID
               params := { Deaf := shouldDeaf, Mute := shouldMute, Nick := nick }
               delay := delay }] }
      else st
    else st
  | none => { st with UserData := addFullUserToMap st.UserData g voiceState.UserID }

/-- What one invocation leaves behind: the guild state, the goroutines started, and the
number of `GameStateMsg.Edit` calls. -/
structure Outcome where
  guild : GuildState
  sent : List Dispatch
  edits : Nat

/-- The loop of `handleTrackedMembers` over the snapshot, started on store `uds`. -/
def handleLoop (guild : GuildState) (g : Guild) (delay : Int) (uds : UserDataSet) : LoopState :=
  g.VoiceStates.foldl (handleStep guild g delay)
    { UserData := uds, updateMade := false, sent := [] }

/-- The function `handleTrackedMembers`. -/
def handleTrackedMembers (guild : GuildState) (g : Guild) (delay : Int) : Outcome :=
  let st := handleLoop guild g delay (verifyStore guild g)
  { guild := { guild with UserData := st.UserData }
    sent := st.sent
    edits := if st.updateMade then 1 else 0 }

/-- The function `voiceStateChange`; `g` is the snapshot `verifyVoiceStateChanges` reads. -/
def voiceStateChange (guild : GuildState) (g : Guild) (m : VoiceStateUpdate) : Outcome :=
  let uds := verifyStore guild g
  match uds.GetUser m.UserID with
  | some userData =>
    let mute := (guild.desired userData m.ChannelID).1
    let deaf := (guild.desired userData m.ChannelID).2
    if !userData.IsPendingVoiceUpdate && (mute != m.Mute || deaf != m.Deaf) then
      { guild := { guild with
          UserData := uds.UpdateUserData m.UserID (userData.SetPendingVoiceUpdate true) }
        sent := [{ guildID := m.GuildID, userID := m.UserID
                   params := { Deaf := deaf, Mute := mute, Nick := guild.nickFor userData }
                   delay := 0 }]
        edits := 1 }
    else { guild := { guild with UserData := uds }, sent := [], edits := 0 }
  | none =>
    { guild := { guild with UserData := addFullUserToMap uds g m.UserID }, sent := [], edits := 0 }

/-- The record `addFullUserToMap` stores for `userID`: the full record of the first member
with that identifier, the minimal record when there is none. -/
def freshUser (g : Guild) (userID : String) : UserData :=
  match findMember g.Members userID with
  | some v => MakeUserDataFromDiscordUser v.ID v.Username v.Nick
  | none => MakeMinimalUserData userID

/-- The test of line 111: the record is not in the state the rules ask for, or a nickname
sync is due. -/
def needsChange (guild : GuildState) (userData : UserData) (voiceState : VoiceState) : Bool :=
  (guild.desired userData voiceState.ChannelID).1 != voiceState.Mute
    || (guild.desired userData voiceState.ChannelID).2 != voiceState.Deaf
    || (guild.nickFor userData != "" && userData.GetNickName != userData.GetPlayerName)

/-- The goroutine line 120 starts for record `userData` at entry `voiceState`. -/
def mkDispatch (guild : GuildState) (userData : UserData) (voiceState : VoiceState)
    (delay : Int) : Dispatch :=
  { guildID := guild.ID, userID := voiceState.UserID
    params := { Deaf := (guild.desired userData voiceState.ChannelID).2
                Mute := (guild.desired userData voiceState.ChannelID).1
                Nick := guild.nickFor userData }
    delay := delay }

/-- Whether some entry of `vs` for user `k` shows the values the rules ask for record `r`. -/
def showsDesired (guild : GuildState) (r : UserData) (k : String) (vs : List VoiceState) : Bool :=
  vs.any (fun v => v.UserID == k && v.Mute == (guild.desired r v.ChannelID).1
    && v.Deaf == (guild.desired r v.ChannelID).2)

/-- The pending flag of user `k` in a store; `false` for an unknown user. -/
def isPending (uds : UserDataSet) (k : String) : Bool :=
  match uds k with
  | some r => r.pendingVoiceUpdate
  | none => false

/-- The dispatches of a list that are for user `k`. -/
def dispatchesFor (k : String) (ds : List Dispatch) : List Dispatch :=
  ds.filter (fun d => d.userID == k)

/-- Whether some entry of `vs` for user `k` passes the test of line 111 for record `r`. -/
def needsAny (guild : GuildState) (r : UserData) (k : String) (vs : List VoiceState) : Bool :=
  vs.any (fun v => v.UserID == k && needsChange guild r v)

/-- The first entry of `vs` for user `k` that passes the test of line 111 for record `r`. -/
def firstNeeding (guild : GuildState) (r : UserData) (k : String) (vs : List VoiceState) :
    Option VoiceState :=
  vs.find? (fun v => v.UserID == k && needsChange guild r v)

/-- The dispatches one pass of the loop of `handleTrackedMembers` over `vs` issues for user
`k`, whose record is `r` when the loop starts. -/
def passDispatches (guild : GuildState) (delay : Int) (r : UserData) (k : String)
    (vs : List VoiceState) : List Dispatch :=
  if r.pendingVoiceUpdate then []
  else
    match firstNeeding guild r k vs with
    | some v => [mkDispatch guild r v delay]
    | none => []

/-- The nickname part of the test of line 111: a nickname is to be sent and the stored
nickname is not the in-game name. -/
def nickDue (guild : GuildState) (userData : UserData) : Bool :=
  guild.nickFor userData != "" && userData.GetNickName != userData.GetPlayerName

/-- The voice part of the test of line 111 (and the whole test of line 185). -/
def voiceDiffers (guild : GuildState) (userData : UserData) (channelID : String)
    (mute deaf : Bool) : Bool :=
  (guild.desired userData channelID).1 != mute || (guild.desired userData channelID).2 != deaf

/-- The snapshot entry that reports what the event reports. -/
def VoiceStateUpdate.entry (m : VoiceStateUpdate) : VoiceState :=
  { UserID := m.UserID, ChannelID := m.ChannelID, Mute := m.Mute, Deaf := m.Deaf }

/-- What a dispatch asks of Discord, the guild id apart: the user, the patch, the delay. -/
def Dispatch.payload (d : Dispatch) : String × UserPatchParameters × Int :=
  (d.userID, d.params, d.delay)

/-- A record with its stored nickname and in-game player name blanked. -/
def eraseNames (r : UserData) : UserData :=
  { r with nick := "", playerName := "" }

/-- Two stores hold the same users with the same records up to the two names. -/
def sameButNames (a b : UserDataSet) : Prop :=
  ∀ k, (a k).map eraseNames = (b k).map eraseNames

/-! ## Reset, and the two halves of a decision -/

/-- Modelled from the spec: `UserDataSet.ClearAllPlayerData` is declared outside `guild.go`.
On a reset the record collection is cleared wholesale ("reset clears all records"), and
with it every link of a user to an in-game player. -/
def UserDataSet.ClearAllPlayerData (_uds : UserDataSet) : UserDataSet := fun _ => none

/-- Modelled from the spec: `Tracking.Reset` is declared outside `guild.go`; the reset
leaves no channel in the tracking set. -/
def trackingReset (_tracking : String → Bool) : String → Bool := fun _ => false

/-- The function `clearGameTracking`, on the fields of the guild state that the
reconciliation reads: the records, the tracking set and the phase. (The in-game player
table and the state message it also clears are not among them.) -/
def clearGameTracking (guild : GuildState) : GuildState :=
  { guild with
    UserData := guild.UserData.ClearAllPlayerData
    Tracking := trackingReset guild.Tracking
    Phase := Phase.LOBBY }

/-- Lines 98 to 134 of `handleTrackedMembers`: what one loop iteration does with the copy
`read` that `GetUser` returned at line 97, on the variables `st` as they are when it goes
on. In `handleStep` the copy is read from `st` itself. -/
def handleDecide (guild : GuildState) (g : Guild) (delay : Int) (st : LoopState)
    (voiceState : VoiceState) (read : Option UserData) : LoopState :=
  match read with
  | some userData =>
    let shouldMute := (guild.desired userData voiceState.ChannelID).1
    let shouldDeaf := (guild.desired userData voiceState.ChannelID).2
    let nick := guild.nickFor userData
    if shouldMute != voiceState.Mute || shouldDeaf != voiceState.Deaf
        || (nick != "" && userData.GetNickName != userData.GetPlayerName) then
      if !userData.IsPendingVoiceUpdate then
        { UserData := st.UserData.UpdateUserData voiceState.UserID
            (userData.SetPendingVoiceUpdate true)
          updateMade := true
          sent := st.sent ++
            [{ guildID := guild.ID, userID := voiceState.UserID
               params := { Deaf := shouldDeaf, Mute := shouldMute, Nick := nick }
               delay := delay }] }
      else st
    else st
  | none => { st with UserData := addFullUserToMap st.UserData g voiceState.UserID }

/-- Lines 180 to 208 of `voiceStateChange`: what the function does with the copy `read`
that `GetUser` returned at line 179, on the store `uds` as it is when it goes on. In
`voiceStateChange` the copy is read from that store. -/
def vscDecide (guild : GuildState) (g : Guild) (uds : UserDataSet) (m : VoiceStateUpdate)
    (read : Option UserData) : Outcome :=
  match read with
  | some userData =>
    let mute := (guild.desired userData m.ChannelID).1
    let deaf := (guild.desired userData m.ChannelID).2
    if !userData.IsPendingVoiceUpdate && (mute != m.Mute || deaf != m.Deaf) then
      { guild := { guild with
          UserData := uds.UpdateUserData m.UserID (userData.SetPendingVoiceUpdate true) }
        sent := [{ guildID := m.GuildID, userID := m.UserID
                   params := { Deaf := deaf, Mute := mute, Nick := guild.nickFor userData }
                   delay := 0 }]
        edits := 1 }
    else { guild := { guild with UserData := uds }, sent := [], edits := 0 }
  | none =>
    { guild := { guild with UserData := addFullUserToMap uds g m.UserID }, sent := [], edits := 0 }

/-- The frame of a pass: from `before` to `after` nothing changes but the store, in the
store every record that was there is still there and differs at most in its pending flag,
and the entry of a user that is not `named` is what it was. -/
def onlyPendingChanged (before after : GuildState) (named : String → Prop) : Prop :=
  after.ID = before.ID ∧ after.Tracking = before.Tracking ∧ after.Delays = before.Delays ∧
    after.Phase = before.Phase ∧ after.VoiceRules = before.VoiceRules ∧
    after.ApplyNicknames = before.ApplyNicknames ∧
    (∀ k r, before.UserData k = some r →
      ∃ b, after.UserData k = some (r.SetPendingVoiceUpdate b)) ∧
    (∀ k, ¬ named k → after.UserData k = before.UserData k)

/-! ## Sequences of passes

Between two passes other code of the bot may set the phase, the tracking set and the links
of the records; it does not touch the pending flags. -/

/-- The link of a record to an in-game player, as the game data sets it. -/
structure Link where
  linked : Bool
  alive : Bool
  playerName : String

/-- What changes between two passes: the phase, the tracking set, and the links of the
records (`none` leaves a record's link as it is). -/
structure Change where
  Phase : Discord.Phase
  Tracking : String → Bool
  relink : String → Option Link

/-- The guild state after a change. -/
def GuildState.change (guild : GuildState) (c : Change) : GuildState :=
  { guild with
    Phase := c.Phase
    Tracking := c.Tracking
    UserData := fun k => (guild.UserData k).map (fun r =>
      match c.relink k with
      | none => r
      | some l => { r with linked := l.linked, alive := l.alive, playerName := l.playerName }) }

/-- The two triggers: a full pass `handleTrackedMembers` on a snapshot, or an event
`voiceStateChange` with the snapshot its confirmation step reads. -/
inductive Trigger where
  | full (g : Guild) (delay : Int)
  | event (g : Guild) (m : VoiceStateUpdate)

/-- The snapshot a trigger processes. -/
def Trigger.snapshot : Trigger → Guild
  | Trigger.full g _ => g
  | Trigger.event g _ => g

/-- The pass a trigger starts. -/
def Trigger.run (guild : GuildState) : Trigger → Outcome
  | Trigger.full g delay => handleTrackedMembers guild g delay
  | Trigger.event g m => voiceStateChange guild g m

/-- One step of a run: a change, then a trigger. -/
structure Step where
  change : Change
  trigger : Trigger

/-- A run so far: the guild state and the dispatches issued and not yet confirmed. -/
structure Run where
  guild : GuildState
  unconfirmed : List Dispatch

/-- Whether snapshot `g` shows, for the user of dispatch `d`, the values `d` carried. -/
def showsCarried (g : Guild) (d : Dispatch) : Bool :=
  g.VoiceStates.any (fun v => v.UserID == d.userID && v.Mute == d.params.Mute
    && v.Deaf == d.params.Deaf)

/-- Whether snapshot `g` shows, for the user of dispatch `d`, the values the rules ask for
that user in state `guild`. -/
def showsCurrent (guild : GuildState) (g : Guild) (d : Dispatch) : Bool :=
  match guild.UserData d.userID with
  | some r => showsDesired guild r d.userID g.VoiceStates
  | none => false

/-- One step, a dispatch counting as confirmed once a processed snapshot shows the values
it carried. -/
def stepCarried (s : Run) (st : Step) : Run :=
  { guild := (st.trigger.run (s.guild.change st.change)).guild
    unconfirmed := s.unconfirmed.filter (fun d => !showsCarried st.trigger.snapshot d)
      ++ (st.trigger.run (s.guild.change st.change)).sent }

/-- One step, a dispatch counting as confirmed once a processed snapshot shows the values
the rules ask for its user at that pass. -/
def stepCurrent (s : Run) (st : Step) : Run :=
  { guild := (st.trigger.run (s.guild.change st.change)).guild
    unconfirmed := s.unconfirmed.filter
        (fun d => !showsCurrent (s.guild.change st.change) st.trigger.snapshot d)
      ++ (st.trigger.run (s.guild.change st.change)).sent }

/-! ## Concrete data for runs of the code -/

/-- A rule table in the shape of the spec's scenarios A and B: nobody outside a tracked
channel is touched, the living are muted during tasks, the dead during discussion. -/
def sampleRules (alive tracked : Bool) (phase : Phase) : Bool × Bool :=
  if tracked then
    match phase with
    | Phase.LOBBY => (false, false)
    | Phase.TASKS => if alive then (true, false) else (false, false)
    | Phase.DISCUSS => if alive then (false, false) else (true, false)
  else (false, false)

/-- User `u1`, linked to the living player `Red`, Discord nickname `bob`. -/
def red (pending : Bool) : UserData :=
  { userID := "u1", userName := "bob", nick := "bob", linked := true, alive := true,
    playerName := "Red", pendingVoiceUpdate := pending }

/-- User `u1` as in `red`, under another nickname and another in-game name. -/
def renamed (pending : Bool) : UserData :=
  { red pending with nick := "zed", playerName := "Blue" }

/-- User `u1` without a link to an in-game player. -/
def guest (pending : Bool) : UserData :=
  { userID := "u1", userName := "bob", nick := "bob", linked := false, alive := true,
    playerName := "", pendingVoiceUpdate := pending }

/-- A guild that tracks channel `c1` and knows user `u1` only, with record `r`. -/
def sampleGuild (phase : Phase) (nicks : Bool) (r : UserData) : GuildState :=
  { ID := "g", UserData := fun k => if k = "u1" then some r else none,
    Tracking := fun c => c == "c1", Delays := MakeDefaultDelays, Phase := phase,
    VoiceRules := sampleRules, ApplyNicknames := nicks }

/-- A snapshot with user `u1` alone, in channel `c1`. -/
def snap (mute deaf : Bool) : Guild :=
  { Members := [], VoiceStates := [{ UserID := "u1", ChannelID := "c1", Mute := mute, Deaf := deaf }] }

/-- A full pass on the snapshot that shows `u1` unmuted in `c1`, in the given phase. -/
def passIn (phase : Phase) (delay : Int) : Step :=
  { change := { Phase := phase, Tracking := fun c => c == "c1", relink := fun _ => none }
    trigger := Trigger.full (snap false false) delay }

/-- Three passes while the game goes tasks, discussion, tasks and Discord still shows `u1`
unmuted. -/
def tasksDiscussTasks : List Step :=
  [passIn Phase.TASKS 7, passIn Phase.DISCUSS 0, passIn Phase.TASKS 7]

/-! ## Lemmas on the store and on one loop iteration -/

theorem findMember_id {ms : List Member} {userID : String} {v : Member}
    (h : findMember ms userID = some v) : v.ID = userID := by
  induction ms with
  | nil => simp [findMember] at h
  | cons a rest ih =>
    unfold findMember at h
    split at h
    · rename_i ha
      cases h
      exact ha
    · exact ih h

theorem freshUser_userID (g : Guild) (userID : String) : (freshUser g userID).userID = userID := by
  unfold freshUser
  split
  · rename_i v hv
    exact findMember_id hv
  · rfl

theorem freshUser_pending (g : Guild) (userID : String) :
    (freshUser g userID).pendingVoiceUpdate = false := by
  unfold freshUser
  split <;> rfl

theorem freshUser_linked (g : Guild) (userID : String) : (freshUser g userID).linked = false := by
  unfold freshUser
  split <;> rfl

theorem freshUser_playerName (g : Guild) (userID : String) :
    (freshUser g userID).playerName = "" := by
  unfold freshUser
  split <;> rfl

theorem addFullUserToMap_apply (uds : UserDataSet) (g : Guild) (userID k : String) :
    addFullUserToMap uds g userID k = if k = userID then some (freshUser g userID) else uds k := by
  have hid := freshUser_userID g userID
  unfold freshUser at hid
  unfold addFullUserToMap freshUser UserDataSet.AddFullUser
  split <;> simp_all

theorem verifyStep_apply (guild : GuildState) (g : Guild) (uds : UserDataSet) (v : VoiceState)
    (k : String) :
    verifyStep guild g uds v k =
      if k = v.UserID then
        (match uds k with
         | some r => some (r.SetPendingVoiceUpdate
             (r.pendingVoiceUpdate && !showsDesired guild r k [v]))
         | none => some (freshUser g k))
      else uds k := by
  unfold verifyStep UserDataSet.GetUser
  by_cases hk : k = v.UserID
  · subst hk
    cases hu : uds v.UserID with
    | none => simp [addFullUserToMap_apply]
    | some r =>
      simp only [if_true]
      cases hp : r.pendingVoiceUpdate <;>
        cases hm : (v.Mute == (guild.desired r v.ChannelID).1) <;>
        cases hd : (v.Deaf == (guild.desired r v.ChannelID).2) <;>
        simp [showsDesired, UserData.IsPendingVoiceUpdate, UserData.SetPendingVoiceUpdate,
          UserDataSet.UpdateUserData, hp, hm, hd, hu] <;>
        (cases r; simp_all)
  · cases hu : uds v.UserID with
    | none => simp [addFullUserToMap_apply, hk]
    | some r =>
      simp only [hk, if_false]
      split <;> simp [UserDataSet.UpdateUserData, hk]

theorem desired_setPending (guild : GuildState) (r : UserData) (b : Bool) (c : String) :
    guild.desired (r.SetPendingVoiceUpdate b) c = guild.desired r c := rfl

theorem showsDesired_setPending (guild : GuildState) (r : UserData) (b : Bool) (k : String)
    (vs : List VoiceState) :
    showsDesired guild (r.SetPendingVoiceUpdate b) k vs = showsDesired guild r k vs := rfl

theorem showsDesired_cons (guild : GuildState) (r : UserData) (k : String) (v : VoiceState)
    (vs : List VoiceState) :
    showsDesired guild r k (v :: vs) = (showsDesired guild r k [v] || showsDesired guild r k vs) := by
  simp [showsDesired]

theorem showsDesired_other (guild : GuildState) (r : UserData) (k : String) (v : VoiceState)
    (h : ¬ k = v.UserID) : showsDesired guild r k [v] = false := by
  have h2 : ¬ v.UserID = k := fun e => h e.symm
  simp [showsDesired, h2]

theorem setPending_self (r : UserData) (b : Bool) (h : r.pendingVoiceUpdate = b) :
    r.SetPendingVoiceUpdate b = r := by
  subst h
  rfl

theorem setPending_setPending (r : UserData) (a b : Bool) :
    (r.SetPendingVoiceUpdate a).SetPendingVoiceUpdate b = r.SetPendingVoiceUpdate b := rfl

theorem setPending_pending (r : UserData) (a : Bool) :
    (r.SetPendingVoiceUpdate a).pendingVoiceUpdate = a := rfl

/-- Closed form of the store after the confirmation loop, user by user. -/
theorem verifyFold_apply (guild : GuildState) (g : Guild) (vs : List VoiceState) :
    ∀ (uds : UserDataSet) (k : String),
      (vs.foldl (verifyStep guild g) uds) k =
        match uds k with
        | some r => some (r.SetPendingVoiceUpdate
            (r.pendingVoiceUpdate && !showsDesired guild r k vs))
        | none => if vs.any (fun v => v.UserID == k) then some (freshUser g k) else none := by
  induction vs with
  | nil =>
    intro uds k
    rw [List.foldl_nil]
    cases uds k with
    | none => simp
    | some r =>
      have : (r.pendingVoiceUpdate && !showsDesired guild r k []) = r.pendingVoiceUpdate := by
        simp [showsDesired]
      simp only [this]
      rfl
  | cons v vs ih =>
    intro uds k
    rw [List.foldl_cons, ih, verifyStep_apply]
    by_cases hk : k = v.UserID
    · have hk2 : v.UserID = k := hk.symm
      rw [if_pos hk]
      cases uds k with
      | none =>
        simp only [freshUser_pending, Bool.false_and]
        rw [setPending_self _ _ (freshUser_pending g k)]
        simp [hk2]
      | some r =>
        simp only [setPending_setPending, setPending_pending, showsDesired_setPending,
          showsDesired_cons guild r k v vs]
        cases r.pendingVoiceUpdate <;> cases showsDesired guild r k [v] <;>
          cases showsDesired guild r k vs <;> rfl
    · have hk2 : ¬ v.UserID = k := fun e => hk e.symm
      rw [if_neg hk]
      cases uds k with
      | none => simp [hk2]
      | some r =>
        simp only [showsDesired_cons guild r k v vs, showsDesired_other guild r k v hk,
          Bool.false_or]

theorem verifyStore_apply (guild : GuildState) (g : Guild) (k : String) :
    verifyStore guild g k =
      match guild.UserData k with
      | some r => some (r.SetPendingVoiceUpdate
          (r.pendingVoiceUpdate && !showsDesired guild r k g.VoiceStates))
      | none => if g.VoiceStates.any (fun v => v.UserID == k) then some (freshUser g k) else none :=
  verifyFold_apply guild g g.VoiceStates guild.UserData k

theorem handleStep_some (guild : GuildState) (g : Guild) (delay : Int) (st : LoopState)
    (v : VoiceState) (r : UserData) (h : st.UserData v.UserID = some r) :
    handleStep guild g delay st v =
      if needsChange guild r v && !r.pendingVoiceUpdate then
        { UserData := st.UserData.UpdateUserData v.UserID (r.SetPendingVoiceUpdate true)
          updateMade := true
          sent := st.sent ++ [mkDispatch guild r v delay] }
      else st := by
  unfold handleStep UserDataSet.GetUser
  rw [h]
  simp only [needsChange, mkDispatch, UserData.IsPendingVoiceUpdate]
  cases hn : ((guild.desired r v.ChannelID).1 != v.Mute
      || (guild.desired r v.ChannelID).2 != v.Deaf
      || (guild.nickFor r != "" && r.GetNickName != r.GetPlayerName)) <;>
    by_cases hp : r.pendingVoiceUpdate = true <;> simp [hp]

theorem handleStep_none (guild : GuildState) (g : Guild) (delay : Int) (st : LoopState)
    (v : VoiceState) (h : st.UserData v.UserID = none) :
    handleStep guild g delay st v =
      { st with UserData := addFullUserToMap st.UserData g v.UserID } := by
  unfold handleStep UserDataSet.GetUser
  rw [h]

theorem dispatchesFor_append (k : String) (a b : List Dispatch) :
    dispatchesFor k (a ++ b) = dispatchesFor k a ++ dispatchesFor k b := by
  simp [dispatchesFor]

theorem handleStep_other (guild : GuildState) (g : Guild) (delay : Int) (st : LoopState)
    (v : VoiceState) (k : String) (hk : ¬ v.UserID = k) :
    (handleStep guild g delay st v).UserData k = st.UserData k ∧
      dispatchesFor k (handleStep guild g delay st v).sent = dispatchesFor k st.sent := by
  have hk2 : ¬ k = v.UserID := fun e => hk e.symm
  cases hu : st.UserData v.UserID with
  | none =>
    rw [handleStep_none guild g delay st v hu]
    simp [addFullUserToMap_apply, hk2]
  | some r =>
    rw [handleStep_some guild g delay st v r hu]
    split
    · simp [UserDataSet.UpdateUserData, hk2, dispatchesFor_append, dispatchesFor, mkDispatch, hk]
    · simp

theorem needsAny_cons (guild : GuildState) (r : UserData) (k : String) (v : VoiceState)
    (vs : List VoiceState) :
    needsAny guild r k (v :: vs) = ((v.UserID == k && needsChange guild r v) || needsAny guild r k vs) := by
  simp [needsAny]

theorem firstNeeding_cons (guild : GuildState) (r : UserData) (k : String) (v : VoiceState)
    (vs : List VoiceState) :
    firstNeeding guild r k (v :: vs) =
      if (v.UserID == k && needsChange guild r v) = true then some v
      else firstNeeding guild r k vs := by
  simp only [firstNeeding, List.find?_cons]
  cases (v.UserID == k && needsChange guild r v) <;> simp

/-- Closed form of the loop of `handleTrackedMembers` for a user that has a record when the
loop starts: the record becomes pending exactly when it was pending or some entry for the
user passes the test, and at most one dispatch is added for the user. -/
theorem handleFold_some (guild : GuildState) (g : Guild) (delay : Int) (k : String)
    (vs : List VoiceState) :
    ∀ (st : LoopState) (r : UserData), st.UserData k = some r →
      (vs.foldl (handleStep guild g delay) st).UserData k =
          some (r.SetPendingVoiceUpdate (r.pendingVoiceUpdate || needsAny guild r k vs)) ∧
        dispatchesFor k (vs.foldl (handleStep guild g delay) st).sent =
          dispatchesFor k st.sent ++ passDispatches guild delay r k vs := by
  induction vs with
  | nil =>
    intro st r h
    constructor
    · rw [List.foldl_nil, h]
      have : (r.pendingVoiceUpdate || needsAny guild r k []) = r.pendingVoiceUpdate := by
        simp [needsAny]
      rw [this]
      rfl
    · simp [passDispatches, firstNeeding]
  | cons v vs ih =>
    intro st r h
    rw [List.foldl_cons]
    by_cases hk : v.UserID = k
    · have hv : st.UserData v.UserID = some r := by rw [hk]; exact h
      rw [handleStep_some guild g delay st v r hv]
      by_cases hc : (needsChange guild r v && !r.pendingVoiceUpdate) = true
      · rw [if_pos hc]
        simp only [Bool.and_eq_true, Bool.not_eq_true_eq_eq_false] at hc
        obtain ⟨hn, hp⟩ := hc
        have hn' : needsChange guild r v = true := by simpa using hn
        have hp' : r.pendingVoiceUpdate = false := by simpa using hp
        have h1 := ih
          { UserData := st.UserData.UpdateUserData v.UserID (r.SetPendingVoiceUpdate true)
            updateMade := true
            sent := st.sent ++ [mkDispatch guild r v delay] }
          (r.SetPendingVoiceUpdate true) (by simp [UserDataSet.UpdateUserData, hk])
        obtain ⟨h1a, h1b⟩ := h1
        constructor
        · rw [h1a]
          simp [setPending_setPending, setPending_pending, needsAny_cons, hk, hn', hp']
        · rw [h1b]
          simp [passDispatches, setPending_pending, hp', firstNeeding_cons, hk, hn',
            dispatchesFor_append, dispatchesFor, mkDispatch]
      · rw [if_neg hc]
        obtain ⟨h1a, h1b⟩ := ih st r h
        constructor
        · rw [h1a, needsAny_cons]
          cases hp : r.pendingVoiceUpdate
          · have hn : needsChange guild r v = false := by
              cases hn : needsChange guild r v
              · rfl
              · exact absurd (by simp [hn, hp]) hc
            simp [hn]
          · simp
        · rw [h1b]
          cases hp : r.pendingVoiceUpdate
          · have hn : needsChange guild r v = false := by
              cases hn : needsChange guild r v
              · rfl
              · exact absurd (by simp [hn, hp]) hc
            simp [passDispatches, hp, firstNeeding_cons, hn]
          · simp [passDispatches, hp]
    · obtain ⟨ho1, ho2⟩ := handleStep_other guild g delay st v k hk
      obtain ⟨h1a, h1b⟩ := ih (handleStep guild g delay st v) r (by rw [ho1]; exact h)
      constructor
      · have hb : (v.UserID == k) = false := by simpa using hk
        rw [h1a, needsAny_cons, hb]
        simp
      · rw [h1b, ho2]
        simp [passDispatches, firstNeeding_cons, hk]

/-- A user without a record that no entry names is left alone by the loop. -/
theorem handleFold_none (guild : GuildState) (g : Guild) (delay : Int) (k : String)
    (vs : List VoiceState) :
    ∀ (st : LoopState), st.UserData k = none → (∀ v ∈ vs, ¬ v.UserID = k) →
      (vs.foldl (handleStep guild g delay) st).UserData k = none ∧
        dispatchesFor k (vs.foldl (handleStep guild g delay) st).sent = dispatchesFor k st.sent := by
  induction vs with
  | nil =>
    intro st h _
    exact ⟨h, rfl⟩
  | cons v vs ih =>
    intro st h hv
    rw [List.foldl_cons]
    have hk : ¬ v.UserID = k := hv v (List.mem_cons_self v vs)
    obtain ⟨ho1, ho2⟩ := handleStep_other guild g delay st v k hk
    obtain ⟨h1a, h1b⟩ := ih (handleStep guild g delay st v) (by rw [ho1]; exact h)
      (fun w hw => hv w (List.mem_cons_of_mem v hw))
    exact ⟨h1a, by rw [h1b, ho2]⟩

theorem showsDesired_absent (guild : GuildState) (r : UserData) (k : String)
    (vs : List VoiceState) (h : ∀ v ∈ vs, ¬ v.UserID = k) : showsDesired guild r k vs = false := by
  simp only [showsDesired, List.any_eq_false]
  intro v hv
  have := h v hv
  simp [this]

theorem showsDesired_single (guild : GuildState) (r : UserData) (v : VoiceState) :
    showsDesired guild r v.UserID [v] =
      (v.Mute == (guild.desired r v.ChannelID).1 && v.Deaf == (guild.desired r v.ChannelID).2) := by
  simp [showsDesired]

theorem showsDesired_nodup (guild : GuildState) (r : UserData) (vs : List VoiceState)
    (hnd : (vs.map (fun v => v.UserID)).Nodup) (v : VoiceState) (hv : v ∈ vs) :
    showsDesired guild r v.UserID vs =
      (v.Mute == (guild.desired r v.ChannelID).1 && v.Deaf == (guild.desired r v.ChannelID).2) := by
  induction vs with
  | nil => cases hv
  | cons w ws ih =>
    rw [List.map_cons, List.nodup_cons] at hnd
    obtain ⟨hw, hws⟩ := hnd
    rw [showsDesired_cons]
    rcases List.mem_cons.mp hv with hvw | hvws
    · subst hvw
      have habs : showsDesired guild r v.UserID ws = false := by
        apply showsDesired_absent
        intro x hx hxe
        exact hw (by rw [← hxe]; exact List.mem_map_of_mem _ hx)
      rw [habs, showsDesired_single]
      simp
    · have hne : ¬ v.UserID = w.UserID := by
        intro e
        exact hw (by rw [← e]; exact List.mem_map_of_mem _ hvws)
      rw [showsDesired_other guild r v.UserID w hne, ih hws hvws]
      simp

theorem any_userID_false (vs : List VoiceState) (k : String) (h : ∀ v ∈ vs, ¬ v.UserID = k) :
    vs.any (fun v => v.UserID == k) = false := by
  simp only [List.any_eq_false]
  intro v hv
  simpa using h v hv

theorem verifyStore_absent (guild : GuildState) (g : Guild) (k : String)
    (h : ∀ v ∈ g.VoiceStates, ¬ v.UserID = k) : verifyStore guild g k = guild.UserData k := by
  rw [verifyStore_apply]
  cases hu : guild.UserData k with
  | none => simp [any_userID_false g.VoiceStates k h]
  | some r =>
    simp only [showsDesired_absent guild r k g.VoiceStates h]
    rw [setPending_self]
    simp

theorem verifyStore_none (guild : GuildState) (g : Guild) (k : String)
    (h : verifyStore guild g k = none) : ∀ v ∈ g.VoiceStates, ¬ v.UserID = k := by
  rw [verifyStore_apply] at h
  cases hu : guild.UserData k with
  | some r => rw [hu] at h; cases h
  | none =>
    rw [hu] at h
    intro v hv hvk
    have : g.VoiceStates.any (fun v => v.UserID == k) = true := by
      rw [List.any_eq_true]
      exact ⟨v, hv, by simp [hvk]⟩
    simp [this] at h

/-- After the confirmation loop every user the snapshot names has a record. -/
theorem verifyStore_known (guild : GuildState) (g : Guild) (v : VoiceState)
    (hv : v ∈ g.VoiceStates) : ∃ r, verifyStore guild g v.UserID = some r := by
  cases h : verifyStore guild g v.UserID with
  | some r => exact ⟨r, rfl⟩
  | none => exact absurd rfl (verifyStore_none guild g v.UserID h v hv)

/-- The store after `handleTrackedMembers`, user by user, from the store after the
confirmation loop. -/
theorem handle_store (guild : GuildState) (g : Guild) (delay : Int) (k : String) :
    (handleTrackedMembers guild g delay).guild.UserData k =
      match verifyStore guild g k with
      | some r => some (r.SetPendingVoiceUpdate
          (r.pendingVoiceUpdate || needsAny guild r k g.VoiceStates))
      | none => none := by
  show (handleLoop guild g delay (verifyStore guild g)).UserData k = _
  unfold handleLoop
  cases h : verifyStore guild g k with
  | some r => exact (handleFold_some guild g delay k g.VoiceStates _ r h).1
  | none =>
    exact (handleFold_none guild g delay k g.VoiceStates _ h (verifyStore_none guild g k h)).1

/-- The dispatches of `handleTrackedMembers` for one user, from the store after the
confirmation loop. -/
theorem handle_sent (guild : GuildState) (g : Guild) (delay : Int) (k : String) :
    dispatchesFor k (handleTrackedMembers guild g delay).sent =
      match verifyStore guild g k with
      | some r => passDispatches guild delay r k g.VoiceStates
      | none => [] := by
  show dispatchesFor k (handleLoop guild g delay (verifyStore guild g)).sent = _
  unfold handleLoop
  cases h : verifyStore guild g k with
  | some r =>
    have := (handleFold_some guild g delay k g.VoiceStates
      { UserData := verifyStore guild g, updateMade := false, sent := [] } r h).2
    simpa [dispatchesFor] using this
  | none =>
    have := (handleFold_none guild g delay k g.VoiceStates
      { UserData := verifyStore guild g, updateMade := false, sent := [] } h
      (verifyStore_none guild g k h)).2
    simpa [dispatchesFor] using this

theorem vsc_sent_userID (guild : GuildState) (g : Guild) (m : VoiceStateUpdate) :
    ∀ d ∈ (voiceStateChange guild g m).sent, d.userID = m.UserID := by
  intro d hd
  unfold voiceStateChange at hd
  simp only [UserDataSet.GetUser] at hd
  split at hd
  · split at hd
    · simp only [List.mem_singleton] at hd
      rw [hd]
    · cases hd
  · cases hd

theorem vsc_sent_pending (guild : GuildState) (g : Guild) (m : VoiceStateUpdate) (r : UserData)
    (h : verifyStore guild g m.UserID = some r) (hp : r.pendingVoiceUpdate = true) :
    (voiceStateChange guild g m).sent = [] := by
  unfold voiceStateChange
  simp only [UserDataSet.GetUser, h, UserData.IsPendingVoiceUpdate, hp]
  simp

theorem dispatchesFor_eq_nil_of_ne (k : String) (ds : List Dispatch)
    (h : ∀ d ∈ ds, ¬ d.userID = k) : dispatchesFor k ds = [] := by
  simp only [dispatchesFor, List.filter_eq_nil_iff]
  intro d hd
  simpa using h d hd

theorem firstNeeding_some (guild : GuildState) (r : UserData) (k : String)
    (vs : List VoiceState) (v : VoiceState) (h : firstNeeding guild r k vs = some v) :
    v ∈ vs ∧ v.UserID = k ∧ needsChange guild r v = true := by
  unfold firstNeeding at h
  have h1 := List.mem_of_find?_eq_some h
  have h2 := List.find?_some h
  simp only [Bool.and_eq_true, beq_iff_eq] at h2
  exact ⟨h1, h2.1, h2.2⟩

theorem firstNeeding_none (guild : GuildState) (r : UserData) (k : String)
    (vs : List VoiceState) (h : firstNeeding guild r k vs = none) :
    ∀ v ∈ vs, v.UserID = k → needsChange guild r v = false := by
  unfold firstNeeding at h
  rw [List.find?_eq_none] at h
  intro v hv hk
  have := h v hv
  simpa [hk] using this

theorem mem_dispatchesFor_self (d : Dispatch) (ds : List Dispatch) (h : d ∈ ds) :
    d ∈ dispatchesFor d.userID ds := by
  simp [dispatchesFor, h]

/-- Every dispatch of `handleTrackedMembers` is the one line 120 builds from a record that is
not pending after the confirmation step and an entry of its user that passes the test. -/
theorem handle_sent_mem (guild : GuildState) (g : Guild) (delay : Int) (d : Dispatch)
    (hd : d ∈ (handleTrackedMembers guild g delay).sent) :
    ∃ v ∈ g.VoiceStates, ∃ r, verifyStore guild g v.UserID = some r ∧
      r.pendingVoiceUpdate = false ∧ needsChange guild r v = true ∧
      firstNeeding guild r v.UserID g.VoiceStates = some v ∧ d = mkDispatch guild r v delay := by
  have hm := mem_dispatchesFor_self d _ hd
  rw [handle_sent] at hm
  cases hu : verifyStore guild g d.userID with
  | none => rw [hu] at hm; cases hm
  | some r =>
    rw [hu] at hm
    simp only [passDispatches] at hm
    cases hp : r.pendingVoiceUpdate with
    | true => simp [hp] at hm
    | false =>
      cases hf : firstNeeding guild r d.userID g.VoiceStates with
      | none => simp [hp, hf] at hm
      | some v =>
        simp only [hp, hf, Bool.false_eq_true, if_false, List.mem_singleton] at hm
        obtain ⟨hv, hk, hn⟩ := firstNeeding_some guild r d.userID g.VoiceStates v hf
        refine ⟨v, hv, r, ?_, hp, hn, ?_, hm⟩
        · rw [hk]; exact hu
        · rw [hk]; exact hf

theorem mem_dispatchesFor (k : String) (d : Dispatch) (ds : List Dispatch) :
    d ∈ dispatchesFor k ds ↔ d ∈ ds ∧ d.userID = k := by
  simp [dispatchesFor]

theorem eraseNames_fields {r r' : UserData} (h : eraseNames r = eraseNames r') :
    r.userID = r'.userID ∧ r.userName = r'.userName ∧ r.linked = r'.linked ∧
      r.alive = r'.alive ∧ r.pendingVoiceUpdate = r'.pendingVoiceUpdate := by
  cases r
  cases r'
  simp only [eraseNames, UserData.mk.injEq] at h
  simp_all

theorem desired_eraseNames (guild : GuildState) {r r' : UserData}
    (h : eraseNames r = eraseNames r') (c : String) : guild.desired r c = guild.desired r' c := by
  obtain ⟨_, _, hl, ha, _⟩ := eraseNames_fields h
  simp [GuildState.desired, UserData.IsAlive, UserData.IsLinked, hl, ha]

theorem eraseNames_setPending (r : UserData) (b : Bool) :
    eraseNames (r.SetPendingVoiceUpdate b) = (eraseNames r).SetPendingVoiceUpdate b := rfl

theorem needsChange_noNick (guild : GuildState) (hn : guild.ApplyNicknames = false) (r : UserData)
    (v : VoiceState) :
    needsChange guild r v =
      ((guild.desired r v.ChannelID).1 != v.Mute || (guild.desired r v.ChannelID).2 != v.Deaf) := by
  simp [needsChange, GuildState.nickFor, hn]

theorem needsChange_eraseNames (guild : GuildState) (hn : guild.ApplyNicknames = false)
    {r r' : UserData} (h : eraseNames r = eraseNames r') (v : VoiceState) :
    needsChange guild r v = needsChange guild r' v := by
  rw [needsChange_noNick guild hn, needsChange_noNick guild hn, desired_eraseNames guild h]

theorem mkDispatch_eraseNames (guild : GuildState) (hn : guild.ApplyNicknames = false)
    {r r' : UserData} (h : eraseNames r = eraseNames r') (v : VoiceState) (delay : Int) :
    mkDispatch guild r v delay = mkDispatch guild r' v delay := by
  simp [mkDispatch, GuildState.nickFor, hn, desired_eraseNames guild h]

theorem showsDesired_eraseNames (guild : GuildState) {r r' : UserData}
    (h : eraseNames r = eraseNames r') (k : String) (vs : List VoiceState) :
    showsDesired guild r k vs = showsDesired guild r' k vs := by
  simp only [showsDesired, desired_eraseNames guild h]

/-- The confirmation loop respects equality of stores up to the names. -/
theorem verifyFold_sameButNames (guild : GuildState) (g : Guild) (vs : List VoiceState)
    (a b : UserDataSet) (h : sameButNames a b) :
    sameButNames (vs.foldl (verifyStep guild g) a) (vs.foldl (verifyStep guild g) b) := by
  intro k
  rw [verifyFold_apply, verifyFold_apply]
  have hk := h k
  cases ha : a k with
  | none =>
    cases hb : b k with
    | none => rfl
    | some r' => rw [ha, hb] at hk; cases hk
  | some r =>
    cases hb : b k with
    | none => rw [ha, hb] at hk; cases hk
    | some r' =>
      rw [ha, hb] at hk
      simp only [Option.map_some', Option.some.injEq] at hk
      simp only [Option.map_some', Option.some.injEq, eraseNames_setPending,
        showsDesired_eraseNames guild hk k vs, (eraseNames_fields hk).2.2.2.2, hk]

/-- One iteration of the loop of `handleTrackedMembers` respects equality of stores up to
the names when `ApplyNicknames` is off, and issues the same dispatch on both. -/
theorem handleStep_sameButNames (guild : GuildState) (hn : guild.ApplyNicknames = false)
    (g : Guild) (delay : Int) (st st' : LoopState) (v : VoiceState)
    (hs : sameButNames st.UserData st'.UserData) (hsent : st.sent = st'.sent)
    (hu : st.updateMade = st'.updateMade) :
    sameButNames (handleStep guild g delay st v).UserData (handleStep guild g delay st' v).UserData ∧
      (handleStep guild g delay st v).sent = (handleStep guild g delay st' v).sent ∧
      (handleStep guild g delay st v).updateMade = (handleStep guild g delay st' v).updateMade := by
  have hk := hs v.UserID
  cases ha : st.UserData v.UserID with
  | none =>
    cases hb : st'.UserData v.UserID with
    | some r' => rw [ha, hb] at hk; cases hk
    | none =>
      rw [handleStep_none guild g delay st v ha, handleStep_none guild g delay st' v hb]
      refine ⟨?_, hsent, hu⟩
      intro k
      simp only [addFullUserToMap_apply]
      split
      · rfl
      · exact hs k
  | some r =>
    cases hb : st'.UserData v.UserID with
    | none => rw [ha, hb] at hk; cases hk
    | some r' =>
      rw [ha, hb] at hk
      simp only [Option.map_some', Option.some.injEq] at hk
      rw [handleStep_some guild g delay st v r ha, handleStep_some guild g delay st' v r' hb,
        needsChange_eraseNames guild hn hk v, (eraseNames_fields hk).2.2.2.2,
        mkDispatch_eraseNames guild hn hk v delay]
      split
      · refine ⟨?_, by rw [hsent], rfl⟩
        intro k
        simp only [UserDataSet.UpdateUserData]
        split
        · simp only [Option.map_some', Option.some.injEq, eraseNames_setPending, hk]
        · exact hs k
      · exact ⟨hs, hsent, hu⟩

theorem handleFold_sameButNames (guild : GuildState) (hn : guild.ApplyNicknames = false)
    (g : Guild) (delay : Int) (vs : List VoiceState) :
    ∀ (st st' : LoopState), sameButNames st.UserData st'.UserData → st.sent = st'.sent →
      st.updateMade = st'.updateMade →
      sameButNames (vs.foldl (handleStep guild g delay) st).UserData
          (vs.foldl (handleStep guild g delay) st').UserData ∧
        (vs.foldl (handleStep guild g delay) st).sent =
          (vs.foldl (handleStep guild g delay) st').sent ∧
        (vs.foldl (handleStep guild g delay) st).updateMade =
          (vs.foldl (handleStep guild g delay) st').updateMade := by
  induction vs with
  | nil => intro st st' h1 h2 h3; exact ⟨h1, h2, h3⟩
  | cons v vs ih =>
    intro st st' h1 h2 h3
    obtain ⟨k1, k2, k3⟩ := handleStep_sameButNames guild hn g delay st st' v h1 h2 h3
    exact ih _ _ k1 k2 k3

theorem desired_unlinked (guild : GuildState) (r : UserData) (hl : r.linked = false)
    (c : String) : guild.desired r c = guild.VoiceRules r.IsAlive false guild.Phase := by
  simp [GuildState.desired, UserData.IsLinked, hl]

theorem desired_unlinked_tracking (guild : GuildState) (tracking' : String → Bool) (r : UserData)
    (hl : r.linked = false) (c : String) :
    GuildState.desired { guild with Tracking := tracking' } r c = guild.desired r c := by
  rw [desired_unlinked _ r hl, desired_unlinked _ r hl]

theorem showsDesired_unlinked_tracking (guild : GuildState) (tracking' : String → Bool)
    (r : UserData) (hl : r.linked = false) (k : String) (vs : List VoiceState) :
    showsDesired { guild with Tracking := tracking' } r k vs = showsDesired guild r k vs := by
  simp only [showsDesired, desired_unlinked_tracking guild tracking' r hl]

theorem needsChange_unlinked_tracking (guild : GuildState) (tracking' : String → Bool)
    (r : UserData) (hl : r.linked = false) (v : VoiceState) :
    needsChange { guild with Tracking := tracking' } r v = needsChange guild r v := by
  simp only [needsChange, desired_unlinked_tracking guild tracking' r hl]
  rfl

theorem passDispatches_unlinked_tracking (guild : GuildState) (tracking' : String → Bool)
    (r : UserData) (hl : r.linked = false) (delay : Int) (k : String) (vs : List VoiceState) :
    passDispatches { guild with Tracking := tracking' } delay r k vs =
      passDispatches guild delay r k vs := by
  have hf : firstNeeding { guild with Tracking := tracking' } r k vs = firstNeeding guild r k vs := by
    simp only [firstNeeding, needsChange_unlinked_tracking guild tracking' r hl]
  have hm : ∀ v, mkDispatch { guild with Tracking := tracking' } r v delay =
      mkDispatch guild r v delay := by
    intro v
    simp only [mkDispatch, desired_unlinked_tracking guild tracking' r hl]
    rfl
  simp only [passDispatches, hf, hm]

/-- The record of an unlinked or unknown user after the confirmation loop is unlinked, and
is the same whatever the tracking set. -/
theorem verifyStore_unlinked_tracking (guild : GuildState) (tracking' : String → Bool)
    (g : Guild) (k : String) (hk : ∀ r, guild.UserData k = some r → r.linked = false) :
    verifyStore { guild with Tracking := tracking' } g k = verifyStore guild g k ∧
      ∀ r, verifyStore guild g k = some r → r.linked = false := by
  rw [verifyStore_apply, verifyStore_apply]
  cases hu : guild.UserData k with
  | none =>
    refine ⟨rfl, ?_⟩
    intro r hr
    simp only at hr
    split at hr
    · cases hr
      exact freshUser_linked g k
    · cases hr
  | some r =>
    have hl := hk r hu
    simp only [showsDesired_unlinked_tracking guild tracking' r hl, true_and]
    intro r' hr'
    cases hr'
    exact hl

/-- The store after `voiceStateChange` at a user other than the event's. -/
theorem vsc_store_other (guild : GuildState) (g : Guild) (m : VoiceStateUpdate) (k : String)
    (hk : ¬ k = m.UserID) : (voiceStateChange guild g m).guild.UserData k = verifyStore guild g k := by
  unfold voiceStateChange
  simp only [UserDataSet.GetUser]
  split
  · split
    · simp [UserDataSet.UpdateUserData, hk]
    · rfl
  · simp [addFullUserToMap_apply, hk]

/-- The test of line 185 on record `r` and event `m`. -/
theorem vsc_sent (guild : GuildState) (g : Guild) (m : VoiceStateUpdate) :
    (voiceStateChange guild g m).sent =
      match verifyStore guild g m.UserID with
      | some r =>
        if (!r.pendingVoiceUpdate && ((guild.desired r m.ChannelID).1 != m.Mute
            || (guild.desired r m.ChannelID).2 != m.Deaf)) = true then
          [{ guildID := m.GuildID, userID := m.UserID
             params := { Deaf := (guild.desired r m.ChannelID).2
                         Mute := (guild.desired r m.ChannelID).1, Nick := guild.nickFor r }
             delay := 0 }]
        else []
      | none => [] := by
  unfold voiceStateChange
  simp only [UserDataSet.GetUser, UserData.IsPendingVoiceUpdate]
  cases verifyStore guild g m.UserID with
  | none => rfl
  | some r =>
    simp only
    split <;> rfl

/-- The record of the event's user after `voiceStateChange`. -/
theorem vsc_store_self (guild : GuildState) (g : Guild) (m : VoiceStateUpdate) :
    (voiceStateChange guild g m).guild.UserData m.UserID =
      match verifyStore guild g m.UserID with
      | some r => some (r.SetPendingVoiceUpdate (r.pendingVoiceUpdate ||
          ((guild.desired r m.ChannelID).1 != m.Mute || (guild.desired r m.ChannelID).2 != m.Deaf)))
      | none => some (freshUser g m.UserID) := by
  unfold voiceStateChange
  simp only [UserDataSet.GetUser, UserData.IsPendingVoiceUpdate]
  cases hu : verifyStore guild g m.UserID with
  | none => simp [addFullUserToMap_apply]
  | some r =>
    simp only
    by_cases hp : r.pendingVoiceUpdate = true
    · simp only [hp, Bool.not_true, Bool.false_and, Bool.false_eq_true, if_false, Bool.true_or, hu,
        Option.some.injEq]
      exact (setPending_self r true hp).symm
    · have hp' : r.pendingVoiceUpdate = false := by simpa using hp
      simp only [hp', Bool.not_false, Bool.true_and, Bool.false_or]
      split
      · rename_i hc
        simp [UserDataSet.UpdateUserData, hc]
      · rename_i hc
        simp only [Bool.not_eq_true] at hc
        simp only [hu, hc, Option.some.injEq]
        exact (setPending_self r false hp').symm

theorem needsChange_split (guild : GuildState) (r : UserData) (v : VoiceState) :
    needsChange guild r v = (voiceDiffers guild r v.ChannelID v.Mute v.Deaf || nickDue guild r) :=
  rfl

theorem any_nodup (P : VoiceState → Bool) (vs : List VoiceState)
    (hnd : (vs.map (fun v => v.UserID)).Nodup) (v : VoiceState) (hv : v ∈ vs) :
    vs.any (fun w => w.UserID == v.UserID && P w) = P v := by
  induction vs with
  | nil => cases hv
  | cons w ws ih =>
    rw [List.map_cons, List.nodup_cons] at hnd
    obtain ⟨hw, hws⟩ := hnd
    rw [List.any_cons]
    rcases List.mem_cons.mp hv with hvw | hvws
    · subst hvw
      have habs : ws.any (fun w => w.UserID == v.UserID && P w) = false := by
        rw [List.any_eq_false]
        intro x hx
        have hne : ¬ x.UserID = v.UserID := by
          intro e
          exact hw (by rw [← e]; exact List.mem_map_of_mem _ hx)
        simp [hne]
      rw [habs]
      simp
    · have hne : ¬ w.UserID = v.UserID := by
        intro e
        exact hw (by rw [e]; exact List.mem_map_of_mem _ hvws)
      rw [ih hws hvws]
      simp [hne]

theorem needsAny_nodup (guild : GuildState) (r : UserData) (vs : List VoiceState)
    (hnd : (vs.map (fun v => v.UserID)).Nodup) (v : VoiceState) (hv : v ∈ vs) :
    needsAny guild r v.UserID vs = needsChange guild r v :=
  any_nodup (fun w => needsChange guild r w) vs hnd v hv

theorem showsDesired_eq_not_voiceDiffers (guild : GuildState) (r : UserData) (v : VoiceState) :
    (v.Mute == (guild.desired r v.ChannelID).1 && v.Deaf == (guild.desired r v.ChannelID).2) =
      !voiceDiffers guild r v.ChannelID v.Mute v.Deaf := by
  simp only [voiceDiffers]
  cases v.Mute <;> cases v.Deaf <;> cases (guild.desired r v.ChannelID).1 <;>
    cases (guild.desired r v.ChannelID).2 <;> rfl

/-- A nickname sync that is not due for the record a user has before the pass is not due
for the record the user has after the confirmation loop either: a record keeps its two
names, and a new record has the empty in-game name. -/
theorem nickDue_verifyStore (guild : GuildState) (g : Guild) (k : String) (r0 : UserData)
    (h0 : verifyStore guild g k = some r0)
    (hnick : ∀ r, guild.UserData k = some r → nickDue guild r = false) :
    nickDue guild r0 = false := by
  rw [verifyStore_apply] at h0
  cases hu : guild.UserData k with
  | some r =>
    rw [hu] at h0
    simp only [Option.some.injEq] at h0
    rw [← h0]
    exact hnick r hu
  | none =>
    rw [hu] at h0
    simp only at h0
    split at h0
    · simp only [Option.some.injEq] at h0
      rw [← h0]
      have hp := freshUser_playerName g k
      simp only [nickDue, GuildState.nickFor, UserData.GetPlayerName, hp]
      cases guild.ApplyNicknames <;> rfl
    · cases h0

theorem needsAny_eq_isSome (guild : GuildState) (r : UserData) (k : String)
    (vs : List VoiceState) : needsAny guild r k vs = (firstNeeding guild r k vs).isSome := by
  simp only [needsAny, firstNeeding]
  induction vs with
  | nil => rfl
  | cons v vs ih =>
    rw [List.any_cons, List.find?_cons, ih]
    cases (v.UserID == k && needsChange guild r v) <;> rfl

theorem exists_sent_iff (k : String) (ds : List Dispatch) :
    (∃ d ∈ ds, d.userID = k) ↔ dispatchesFor k ds ≠ [] := by
  constructor
  · rintro ⟨d, hd, hk⟩ h
    have : d ∈ dispatchesFor k ds := (mem_dispatchesFor k d ds).mpr ⟨hd, hk⟩
    rw [h] at this
    cases this
  · intro h
    obtain ⟨d, hd⟩ := List.exists_mem_of_ne_nil _ h
    exact ⟨d, ((mem_dispatchesFor k d ds).mp hd).1, ((mem_dispatchesFor k d ds).mp hd).2⟩

/-- After `handleTrackedMembers`, a user whose record is not pending after the confirmation
step is pending exactly when the pass dispatched for the user. -/
theorem handle_pending_iff_sent (guild : GuildState) (g : Guild) (delay : Int) (k : String)
    (r : UserData) (hr : verifyStore guild g k = some r) (hp : r.pendingVoiceUpdate = false) :
    isPending (handleTrackedMembers guild g delay).guild.UserData k = true ↔
      ∃ d ∈ (handleTrackedMembers guild g delay).sent, d.userID = k := by
  rw [exists_sent_iff, handle_sent, isPending, handle_store, hr]
  simp only [setPending_pending, hp, Bool.false_or, passDispatches, Bool.false_eq_true, if_false,
    needsAny_eq_isSome]
  cases firstNeeding guild r k g.VoiceStates <;> simp

/-- After `voiceStateChange`, a user whose record is not pending after the confirmation step
is pending exactly when the event dispatched for the user. -/
theorem vsc_pending_iff_sent (guild : GuildState) (g : Guild) (m : VoiceStateUpdate) (k : String)
    (r : UserData) (hr : verifyStore guild g k = some r) (hp : r.pendingVoiceUpdate = false) :
    isPending (voiceStateChange guild g m).guild.UserData k = true ↔
      ∃ d ∈ (voiceStateChange guild g m).sent, d.userID = k := by
  by_cases hk : k = m.UserID
  · subst hk
    rw [isPending, vsc_store_self, vsc_sent, hr]
    simp only [setPending_pending, hp, Bool.false_or, Bool.not_false, Bool.true_and]
    cases ((guild.desired r m.ChannelID).1 != m.Mute || (guild.desired r m.ChannelID).2 != m.Deaf)
      <;> simp
  · rw [isPending, vsc_store_other guild g m k hk, hr]
    simp only [hp, Bool.false_eq_true, false_iff, not_exists, not_and]
    intro d hd e
    exact hk (by rw [← e]; exact vsc_sent_userID guild g m d hd)

/-! ## Lemmas on runs -/

theorem isPending_change (guild : GuildState) (c : Change) (k : String) :
    isPending (guild.change c).UserData k = isPending guild.UserData k := by
  simp only [isPending, GuildState.change]
  cases guild.UserData k with
  | none => rfl
  | some r => cases c.relink k <;> rfl

/-- A pass adds at most one dispatch per user, and only for a user it leaves pending. -/
theorem run_sent_bound (guild : GuildState) (t : Trigger) (k : String) :
    (dispatchesFor k (t.run guild).sent).length ≤
      (if isPending (t.run guild).guild.UserData k = true then 1 else 0) := by
  cases t with
  | full g delay =>
    simp only [Trigger.run]
    rw [handle_sent]
    simp only [isPending, handle_store]
    cases verifyStore guild g k with
    | none => simp
    | some r =>
      simp only [passDispatches, setPending_pending, needsAny_eq_isSome]
      by_cases hp : r.pendingVoiceUpdate = true
      · simp [hp]
      · have hp' : r.pendingVoiceUpdate = false := by simpa using hp
        cases firstNeeding guild r k g.VoiceStates <;> simp [hp']
  | event g m =>
    simp only [Trigger.run]
    by_cases hk : k = m.UserID
    · subst hk
      rw [vsc_sent]
      simp only [isPending, vsc_store_self]
      cases verifyStore guild g m.UserID with
      | none => simp [dispatchesFor]
      | some r =>
        simp only [setPending_pending]
        by_cases hp : r.pendingVoiceUpdate = true
        · simp [hp, dispatchesFor]
        · have hp' : r.pendingVoiceUpdate = false := by simpa using hp
          by_cases hv : ((guild.desired r m.ChannelID).1 != m.Mute
            || (guild.desired r m.ChannelID).2 != m.Deaf) = true
          · simp [hp', hv, dispatchesFor]
          · simp [hp', hv, dispatchesFor]
    · rw [dispatchesFor_eq_nil_of_ne]
      · simp
      · intro d hd e
        exact hk (by rw [← e]; exact vsc_sent_userID guild g m d hd)

/-- A user pending after the confirmation step gets no dispatch from the pass and is
pending after it. -/
theorem run_pending_kept (guild : GuildState) (t : Trigger) (k : String)
    (h : isPending (verifyStore guild t.snapshot) k = true) :
    dispatchesFor k (t.run guild).sent = [] ∧ isPending (t.run guild).guild.UserData k = true := by
  cases t with
  | full g delay =>
    simp only [Trigger.run, Trigger.snapshot] at h ⊢
    rw [handle_sent, isPending, handle_store]
    unfold isPending at h
    cases hu : verifyStore guild g k with
    | none => rw [hu] at h; cases h
    | some r =>
      rw [hu] at h
      simp only at h
      simp [passDispatches, h, setPending_pending]
  | event g m =>
    simp only [Trigger.run, Trigger.snapshot] at h ⊢
    by_cases hk : k = m.UserID
    · subst hk
      rw [vsc_sent, isPending, vsc_store_self]
      unfold isPending at h
      cases hu : verifyStore guild g m.UserID with
      | none => rw [hu] at h; cases h
      | some r =>
        rw [hu] at h
        simp only at h
        simp [h, setPending_pending, dispatchesFor]
    · constructor
      · apply dispatchesFor_eq_nil_of_ne
        intro d hd e
        exact hk (by rw [← e]; exact vsc_sent_userID guild g m d hd)
      · rw [isPending, vsc_store_other guild g m k hk]
        exact h

/-- The unconfirmed dispatches of one user that survive a snapshot: none when the snapshot
shows the values the rules ask for the user, all of them otherwise. -/
theorem dispatchesFor_filter_current (guild : GuildState) (g : Guild) (k : String)
    (ds : List Dispatch) :
    dispatchesFor k (ds.filter (fun d => !showsCurrent guild g d)) =
      match guild.UserData k with
      | some r => if showsDesired guild r k g.VoiceStates = true then [] else dispatchesFor k ds
      | none => dispatchesFor k ds := by
  have hcomm : dispatchesFor k (ds.filter (fun d => !showsCurrent guild g d)) =
      (dispatchesFor k ds).filter (fun d => !showsCurrent guild g d) := by
    simp only [dispatchesFor, List.filter_filter]
    congr 1
    funext d
    exact Bool.and_comm _ _
  rw [hcomm]
  cases hu : guild.UserData k with
  | none =>
    simp only
    rw [List.filter_eq_self]
    intro d hd
    have hdk := ((mem_dispatchesFor k d ds).mp hd).2
    simp [showsCurrent, hdk, hu]
  | some r =>
    simp only
    split
    · rename_i hs
      rw [List.filter_eq_nil_iff]
      intro d hd
      have hdk := ((mem_dispatchesFor k d ds).mp hd).2
      simp [showsCurrent, hdk, hu, hs]
    · rename_i hs
      rw [List.filter_eq_self]
      intro d hd
      have hdk := ((mem_dispatchesFor k d ds).mp hd).2
      simp [showsCurrent, hdk, hu, hs]

/-- The invariant of a run: a user has at most one unconfirmed dispatch, and none unless
the record is pending. -/
theorem stepCurrent_invariant (s : Run) (st : Step)
    (hinv : ∀ k, (dispatchesFor k s.unconfirmed).length ≤
      (if isPending s.guild.UserData k = true then 1 else 0)) :
    ∀ k, (dispatchesFor k (stepCurrent s st).unconfirmed).length ≤
      (if isPending (stepCurrent s st).guild.UserData k = true then 1 else 0) := by
  intro k
  have hk := hinv k
  rw [← isPending_change s.guild st.change k] at hk
  simp only [stepCurrent, dispatchesFor_append, List.length_append]
  rw [dispatchesFor_filter_current]
  have hbound := run_sent_bound (s.guild.change st.change) st.trigger k
  have hver := verifyStore_apply (s.guild.change st.change) st.trigger.snapshot k
  cases hu : (s.guild.change st.change).UserData k with
  | none =>
    simp only [isPending, hu] at hk
    simp only [Bool.false_eq_true, if_false, Nat.le_zero, List.length_eq_zero] at hk
    simp only [hk, List.length_nil, Nat.zero_add]
    exact hbound
  | some r =>
    simp only [isPending, hu] at hk
    rw [hu] at hver
    simp only at hver
    by_cases hs : showsDesired (s.guild.change st.change) r k st.trigger.snapshot.VoiceStates = true
    · simp only [hs, if_true, List.length_nil, Nat.zero_add]
      exact hbound
    · dsimp only
      rw [if_neg hs]
      by_cases hp : r.pendingVoiceUpdate = true
      · have hs' : showsDesired (s.guild.change st.change) r k
            st.trigger.snapshot.VoiceStates = false := by simpa using hs
        have hpend : isPending (verifyStore (s.guild.change st.change) st.trigger.snapshot) k
            = true := by
          rw [isPending, hver]
          simp [setPending_pending, hp, hs']
        obtain ⟨h1, h2⟩ := run_pending_kept (s.guild.change st.change) st.trigger k hpend
        simp only [hp, if_true] at hk
        simp only [h1, h2, List.length_nil, Nat.add_zero, if_true]
        exact hk
      · simp only [hp, Bool.false_eq_true, if_false, Nat.le_zero, List.length_eq_zero] at hk
        simp only [hk, List.length_nil, Nat.zero_add]
        exact hbound

/-! ## Lemmas for the later claims -/

theorem findMember_first (pre post : List Member) (v : Member) (userID : String)
    (hv : v.ID = userID) (hpre : ∀ w ∈ pre, ¬ w.ID = userID) :
    findMember (pre ++ v :: post) userID = some v := by
  induction pre with
  | nil => simp [findMember, hv]
  | cons a rest ih =>
    have ha : ¬ a.ID = userID := hpre a (List.mem_cons_self a rest)
    simp only [List.cons_append, findMember, ha, if_false]
    exact ih (fun w hw => hpre w (List.mem_cons_of_mem a hw))

theorem findMember_absent (ms : List Member) (userID : String)
    (h : ∀ w ∈ ms, ¬ w.ID = userID) : findMember ms userID = none := by
  induction ms with
  | nil => rfl
  | cons a rest ih =>
    have ha : ¬ a.ID = userID := h a (List.mem_cons_self a rest)
    simp only [findMember, ha, if_false]
    exact ih (fun w hw => h w (List.mem_cons_of_mem a hw))

theorem needsAny_absent (guild : GuildState) (r : UserData) (k : String) (vs : List VoiceState)
    (h : ∀ v ∈ vs, ¬ v.UserID = k) : needsAny guild r k vs = false := by
  simp only [needsAny, List.any_eq_false]
  intro v hv
  have := h v hv
  simp [this]

/-- In the loop of `handleTrackedMembers`, `updateMade` is set exactly when a dispatch has
been issued. -/
theorem handleFold_updateMade (guild : GuildState) (g : Guild) (delay : Int)
    (vs : List VoiceState) :
    ∀ (st : LoopState), (st.updateMade = true ↔ st.sent ≠ []) →
      ((vs.foldl (handleStep guild g delay) st).updateMade = true ↔
        (vs.foldl (handleStep guild g delay) st).sent ≠ []) := by
  induction vs with
  | nil => intro st h; exact h
  | cons v vs ih =>
    intro st h
    rw [List.foldl_cons]
    apply ih
    cases hu : st.UserData v.UserID with
    | none =>
      rw [handleStep_none guild g delay st v hu]
      exact h
    | some r =>
      rw [handleStep_some guild g delay st v r hu]
      split
      · simp
      · exact h

theorem vsc_edits (guild : GuildState) (g : Guild) (m : VoiceStateUpdate) :
    (voiceStateChange guild g m).edits =
      match verifyStore guild g m.UserID with
      | some r =>
        if (!r.pendingVoiceUpdate && ((guild.desired r m.ChannelID).1 != m.Mute
            || (guild.desired r m.ChannelID).2 != m.Deaf)) = true then 1 else 0
      | none => 0 := by
  unfold voiceStateChange
  simp only [UserDataSet.GetUser, UserData.IsPendingVoiceUpdate]
  cases verifyStore guild g m.UserID with
  | none => rfl
  | some r =>
    simp only
    split <;> rfl

/-- Run without interruption, the read of line 97 and the rest of the iteration are
`handleStep`. -/
theorem handleStep_eq_decide (guild : GuildState) (g : Guild) (delay : Int) (st : LoopState)
    (v : VoiceState) :
    handleStep guild g delay st v =
      handleDecide guild g delay st v (st.UserData.GetUser v.UserID) := rfl

/-- Run without interruption, the confirmation step, the read of line 179 and the rest are
`voiceStateChange`. -/
theorem voiceStateChange_eq_decide (guild : GuildState) (g : Guild) (m : VoiceStateUpdate) :
    voiceStateChange guild g m =
      vscDecide guild g (verifyStore guild g) m ((verifyStore guild g).GetUser m.UserID) := rfl

/-- With no channel tracked, whatever the store holds, every dispatch of
`handleTrackedMembers` carries what the rules yield for tracked = false. -/
theorem untracked_dispatches (guild : GuildState) (g : Guild) (delay : Int)
    (ht : ∀ c, guild.Tracking c = false) :
    ∀ d ∈ (handleTrackedMembers guild g delay).sent,
      ∃ r : UserData, (d.params.Mute, d.params.Deaf) =
        guild.VoiceRules r.IsAlive false guild.Phase := by
  intro d hd
  obtain ⟨v, _, r, _, _, _, _, hdv⟩ := handle_sent_mem guild g delay d hd
  refine ⟨r, ?_⟩
  rw [hdv]
  simp [mkDispatch, GuildState.desired, ht]

/-- The store after the confirmation loop keeps every record, up to its pending flag. -/
theorem verifyStore_keeps (guild : GuildState) (g : Guild) (k : String) (r : UserData)
    (h : guild.UserData k = some r) :
    ∃ b, verifyStore guild g k = some (r.SetPendingVoiceUpdate b) := by
  rw [verifyStore_apply, h]
  exact ⟨_, rfl⟩

/-! ## The claims -/

/-- C4: on a snapshot that names each user at most once, `verifyVoiceStateChanges` leaves
the record of every known user of the snapshot as it was except for the pending flag, which
becomes (old pending AND NOT (actual mute = desired mute AND actual deaf = desired deaf))
with the desired values those of `GetVoiceState(alive, tracked AND linked, phase)`; no
flag that was false (or absent) is true afterwards; and the record of a user the snapshot
does not name is untouched. The function starts no goroutine: its embedding has no
dispatch output. -/
theorem verifyVoiceStateChanges_flags (guild : GuildState) (g : Guild)
    (hnd : (g.VoiceStates.map (fun v => v.UserID)).Nodup) :
    (∀ v ∈ g.VoiceStates, ∀ r, guild.UserData v.UserID = some r →
      (verifyVoiceStateChanges guild g).UserData v.UserID =
        some (r.SetPendingVoiceUpdate (r.IsPendingVoiceUpdate &&
          !(v.Mute == (guild.VoiceRules r.IsAlive
                (guild.Tracking v.ChannelID && r.IsLinked) guild.Phase).1 &&
            v.Deaf == (guild.VoiceRules r.IsAlive
                (guild.Tracking v.ChannelID && r.IsLinked) guild.Phase).2)))) ∧
    (∀ k r', (verifyVoiceStateChanges guild g).UserData k = some r' →
      r'.IsPendingVoiceUpdate = true →
        ∃ r, guild.UserData k = some r ∧ r.IsPendingVoiceUpdate = true) ∧
    (∀ k, (∀ v ∈ g.VoiceStates, ¬ v.UserID = k) →
      (verifyVoiceStateChanges guild g).UserData k = guild.UserData k) := by
  refine ⟨?_, ?_, ?_⟩
  · intro v hv r hr
    show verifyStore guild g v.UserID = _
    rw [verifyStore_apply, hr]
    simp only [showsDesired_nodup guild r g.VoiceStates hnd v hv]
    rfl
  · intro k r' hr' hp
    have h : verifyStore guild g k = some r' := hr'
    rw [verifyStore_apply] at h
    cases hu : guild.UserData k with
    | none =>
      rw [hu] at h
      simp only at h
      split at h
      · cases h
        have := freshUser_pending g k
        simp [UserData.IsPendingVoiceUpdate, this] at hp
      · cases h
    | some r =>
      rw [hu] at h
      simp only [Option.some.injEq] at h
      refine ⟨r, rfl, ?_⟩
      rw [← h] at hp
      simp only [UserData.IsPendingVoiceUpdate, setPending_pending, Bool.and_eq_true] at hp
      exact hp.1
  · intro k hk
    exact verifyStore_absent guild g k hk

/-- C4, on a run: user `u1` is pending and the snapshot shows the state the rules ask for. -/
theorem verifyVoiceStateChanges_flags_witness :
    (verifyVoiceStateChanges (sampleGuild Phase.TASKS false (red true)) (snap true false)).UserData
      "u1" = some (red false) :=
  (verifyVoiceStateChanges_flags (sampleGuild Phase.TASKS false (red true)) (snap true false)
    (by decide)).1 ⟨"u1", "c1", true, false⟩ (by decide) (red true) rfl

/-- C3, as stated, fails: user `u1` is pending when `handleTrackedMembers` is invoked, the
snapshot shows the state the rules ask for, so the confirmation step clears the flag, and
the same invocation then dispatches for `u1` because a nickname sync is due. -/
theorem pending_at_invocation_dispatched :
    isPending (sampleGuild Phase.LOBBY true (red true)).UserData "u1" = true ∧
      (handleTrackedMembers (sampleGuild Phase.LOBBY true (red true)) (snap false false) 0).sent =
        [{ guildID := "g", userID := "u1"
           params := { Deaf := false, Mute := false, Nick := "Red" }, delay := 0 }] := by
  decide

/-- C3, amended: a user whose record is pending after the confirmation step of the
invocation gets no dispatch from that invocation, be it `handleTrackedMembers` or
`voiceStateChange`. -/
theorem pending_after_confirmation_not_dispatched (guild : GuildState) (g : Guild) (delay : Int)
    (m : VoiceStateUpdate) (k : String) (r : UserData)
    (h : (verifyVoiceStateChanges guild g).UserData k = some r)
    (hp : r.IsPendingVoiceUpdate = true) :
    (∀ d ∈ (handleTrackedMembers guild g delay).sent, ¬ d.userID = k) ∧
      (∀ d ∈ (voiceStateChange guild g m).sent, ¬ d.userID = k) := by
  have h' : verifyStore guild g k = some r := h
  have hp' : r.pendingVoiceUpdate = true := hp
  constructor
  · have hs := handle_sent guild g delay k
    rw [h'] at hs
    simp only [passDispatches, hp', if_true] at hs
    intro d hd hdk
    have : d ∈ dispatchesFor k (handleTrackedMembers guild g delay).sent := by
      simp [dispatchesFor, hd, hdk]
    rw [hs] at this
    cases this
  · intro d hd hdk
    have hm := vsc_sent_userID guild g m d hd
    have hmk : m.UserID = k := by rw [← hm, hdk]
    have := vsc_sent_pending guild g m r (by rw [hmk]; exact h') hp'
    rw [this] at hd
    cases hd

/-- C3, amended, on a run: `u1` is pending and the snapshot does not show the muted state
the rules ask for during tasks, so the flag stays and nothing is dispatched. -/
theorem pending_after_confirmation_not_dispatched_witness :
    (∀ d ∈ (handleTrackedMembers (sampleGuild Phase.TASKS true (red true)) (snap false false) 7).sent,
        ¬ d.userID = "u1") ∧
      (∀ d ∈ (voiceStateChange (sampleGuild Phase.TASKS true (red true)) (snap false false)
          ⟨"u1", "c1", "g", false, false⟩).sent, ¬ d.userID = "u1") :=
  pending_after_confirmation_not_dispatched (sampleGuild Phase.TASKS true (red true))
    (snap false false) 7 ⟨"u1", "c1", "g", false, false⟩ "u1" (red true) (by decide) rfl

/-- C8: every dispatch of `handleTrackedMembers` comes from a snapshot entry `v` and the
record `r` its user has when the decision is taken (the record after the confirmation
step, not pending): it carries the entry's user id, the guild id, the delay argument of the
call, mute and deaf as `GetVoiceState(alive, tracked AND linked, phase)` yields them for `r`
in the entry's channel, and the nickname (the in-game name when `ApplyNicknames` is on,
empty otherwise). Every dispatch of `voiceStateChange` carries the event's user id, the
values computed likewise for the event's channel, the nickname likewise, and delay 0. -/
theorem dispatch_payload (guild : GuildState) (g : Guild) (delay : Int) (m : VoiceStateUpdate) :
    (∀ d ∈ (handleTrackedMembers guild g delay).sent,
      ∃ v ∈ g.VoiceStates, ∃ r, (verifyVoiceStateChanges guild g).UserData v.UserID = some r ∧
        r.IsPendingVoiceUpdate = false ∧
        d.userID = v.UserID ∧ d.guildID = guild.ID ∧ d.delay = delay ∧
        d.params.Mute = (guild.VoiceRules r.IsAlive
          (guild.Tracking v.ChannelID && r.IsLinked) guild.Phase).1 ∧
        d.params.Deaf = (guild.VoiceRules r.IsAlive
          (guild.Tracking v.ChannelID && r.IsLinked) guild.Phase).2 ∧
        d.params.Nick = (if guild.ApplyNicknames then r.GetPlayerName else "")) ∧
    (∀ d ∈ (voiceStateChange guild g m).sent,
      ∃ r, (verifyVoiceStateChanges guild g).UserData m.UserID = some r ∧
        r.IsPendingVoiceUpdate = false ∧
        d.userID = m.UserID ∧ d.guildID = m.GuildID ∧ d.delay = 0 ∧
        d.params.Mute = (guild.VoiceRules r.IsAlive
          (guild.Tracking m.ChannelID && r.IsLinked) guild.Phase).1 ∧
        d.params.Deaf = (guild.VoiceRules r.IsAlive
          (guild.Tracking m.ChannelID && r.IsLinked) guild.Phase).2 ∧
        d.params.Nick = (if guild.ApplyNicknames then r.GetPlayerName else "")) := by
  constructor
  · intro d hd
    obtain ⟨v, hv, r, hr, hp, _, _, hdv⟩ := handle_sent_mem guild g delay d hd
    refine ⟨v, hv, r, hr, hp, ?_⟩
    subst hdv
    simp only [mkDispatch, GuildState.desired, GuildState.nickFor, true_and]
    cases guild.ApplyNicknames <;> simp
  · intro d hd
    unfold voiceStateChange at hd
    simp only [UserDataSet.GetUser] at hd
    cases hu : verifyStore guild g m.UserID with
    | none => rw [hu] at hd; cases hd
    | some r =>
      rw [hu] at hd
      simp only at hd
      split at hd
      · rename_i hc
        simp only [List.mem_singleton] at hd
        subst hd
        refine ⟨r, hu, ?_⟩
        simp only [Bool.and_eq_true, Bool.not_eq_true_eq_eq_false] at hc
        simp only [GuildState.desired, GuildState.nickFor, true_and]
        refine ⟨by simpa [UserData.IsPendingVoiceUpdate] using hc.1, ?_⟩
        cases guild.ApplyNicknames <;> simp
      · cases hd

/-- C9: with `ApplyNicknames` off, `handleTrackedMembers` does not look at the stored
nickname or the in-game player name: run on a store that differs from the guild's only in
those two fields of its records, it issues the same dispatches and leaves the same store up
to those two fields; a user is dispatched exactly when, after the confirmation step, the
record is not pending and some snapshot entry of the user shows (mute, deaf) other than the
desired values; and every dispatch carries the empty nickname. -/
theorem handleTrackedMembers_ignores_names (guild : GuildState) (g : Guild) (delay : Int)
    (uds' : UserDataSet) (hn : guild.ApplyNicknames = false)
    (hs : sameButNames uds' guild.UserData) :
    (handleTrackedMembers { guild with UserData := uds' } g delay).sent =
        (handleTrackedMembers guild g delay).sent ∧
      sameButNames (handleTrackedMembers { guild with UserData := uds' } g delay).guild.UserData
        (handleTrackedMembers guild g delay).guild.UserData ∧
      (∀ k, (∃ d ∈ (handleTrackedMembers guild g delay).sent, d.userID = k) ↔
        ∃ r, (verifyVoiceStateChanges guild g).UserData k = some r ∧
          r.IsPendingVoiceUpdate = false ∧
          ∃ v ∈ g.VoiceStates, v.UserID = k ∧
            ¬ ((guild.VoiceRules r.IsAlive
                  (guild.Tracking v.ChannelID && r.IsLinked) guild.Phase).1 = v.Mute ∧
               (guild.VoiceRules r.IsAlive
                  (guild.Tracking v.ChannelID && r.IsLinked) guild.Phase).2 = v.Deaf)) ∧
      (∀ d ∈ (handleTrackedMembers guild g delay).sent, d.params.Nick = "") := by
  have hv : sameButNames (g.VoiceStates.foldl (verifyStep guild g) uds')
      (g.VoiceStates.foldl (verifyStep guild g) guild.UserData) :=
    verifyFold_sameButNames guild g g.VoiceStates uds' guild.UserData hs
  have hl := handleFold_sameButNames guild hn g delay g.VoiceStates
    { UserData := g.VoiceStates.foldl (verifyStep guild g) uds', updateMade := false, sent := [] }
    { UserData := g.VoiceStates.foldl (verifyStep guild g) guild.UserData,
      updateMade := false, sent := [] } hv rfl rfl
  refine ⟨hl.2.1, hl.1, ?_, ?_⟩
  · intro k
    constructor
    · rintro ⟨d, hd, hdk⟩
      obtain ⟨v, hv, r, hr, hp, hnc, _, hdv⟩ := handle_sent_mem guild g delay d hd
      have hvk : v.UserID = k := by rw [← hdk, hdv]; rfl
      refine ⟨r, by rw [← hvk]; exact hr, hp, v, hv, hvk, ?_⟩
      rw [needsChange_noNick guild hn] at hnc
      rintro ⟨e1, e2⟩
      simp only [GuildState.desired] at hnc
      rw [e1, e2] at hnc
      simp at hnc
    · rintro ⟨r, hr, hp, v, hv, hvk, hne⟩
      have hr' : verifyStore guild g k = some r := hr
      have hp' : r.pendingVoiceUpdate = false := hp
      have hs := handle_sent guild g delay k
      rw [hr'] at hs
      simp only [passDispatches, hp'] at hs
      cases hf : firstNeeding guild r k g.VoiceStates with
      | none =>
        have := firstNeeding_none guild r k g.VoiceStates hf v hv hvk
        rw [needsChange_noNick guild hn] at this
        simp only [GuildState.desired, Bool.or_eq_false_iff, bne_eq_false_iff_eq] at this
        exact absurd this hne
      | some w =>
        rw [hf] at hs
        simp only [Bool.false_eq_true, if_false] at hs
        have hm : mkDispatch guild r w delay ∈
            dispatchesFor k (handleTrackedMembers guild g delay).sent := by
          rw [hs]; exact List.mem_singleton_self _
        rw [mem_dispatchesFor] at hm
        exact ⟨_, hm.1, hm.2⟩
  · intro d hd
    obtain ⟨v, _, r, _, _, _, _, hdv⟩ := handle_sent_mem guild g delay d hd
    rw [hdv]
    simp [mkDispatch, GuildState.nickFor, hn]

/-- C9, on a run: `u1` is muted for the tasks phase whatever the two names are. -/
theorem handleTrackedMembers_ignores_names_witness :
    (handleTrackedMembers (sampleGuild Phase.TASKS false (renamed false)) (snap false false) 7).sent =
      (handleTrackedMembers (sampleGuild Phase.TASKS false (red false)) (snap false false) 7).sent :=
  (handleTrackedMembers_ignores_names (sampleGuild Phase.TASKS false (red false))
    (snap false false) 7 (sampleGuild Phase.TASKS false (renamed false)).UserData rfl
    (by
      intro k
      by_cases hk : k = "u1" <;> simp [sampleGuild, hk, eraseNames, renamed, red])).1

/-- C10: for a user whose record is not linked (or who has no record yet), the tracked
argument the three functions pass to `GetVoiceState` is false in every channel, and
replacing the tracking set by any other leaves, for that user, the record after
`verifyVoiceStateChanges`, the record after and the dispatches of `handleTrackedMembers`, and
the record after and the dispatches of `voiceStateChange` the same. -/
theorem unlinked_ignores_tracking (guild : GuildState) (tracking' : String → Bool) (g : Guild)
    (delay : Int) (m : VoiceStateUpdate) (k : String)
    (hk : ∀ r, guild.UserData k = some r → r.IsLinked = false) :
    (∀ r c, (verifyVoiceStateChanges guild g).UserData k = some r →
        (guild.Tracking c && r.IsLinked) = false) ∧
      (verifyVoiceStateChanges { guild with Tracking := tracking' } g).UserData k =
        (verifyVoiceStateChanges guild g).UserData k ∧
      (handleTrackedMembers { guild with Tracking := tracking' } g delay).guild.UserData k =
        (handleTrackedMembers guild g delay).guild.UserData k ∧
      dispatchesFor k (handleTrackedMembers { guild with Tracking := tracking' } g delay).sent =
        dispatchesFor k (handleTrackedMembers guild g delay).sent ∧
      (voiceStateChange { guild with Tracking := tracking' } g m).guild.UserData k =
        (voiceStateChange guild g m).guild.UserData k ∧
      dispatchesFor k (voiceStateChange { guild with Tracking := tracking' } g m).sent =
        dispatchesFor k (voiceStateChange guild g m).sent := by
  obtain ⟨hv, hl⟩ := verifyStore_unlinked_tracking guild tracking' g k hk
  refine ⟨?_, hv, ?_, ?_, ?_⟩
  · intro r c hr
    have : r.linked = false := hl r hr
    simp [UserData.IsLinked, this]
  · rw [handle_store, handle_store, hv]
    cases hu : verifyStore guild g k with
    | none => rfl
    | some r =>
      have hn : needsAny { guild with Tracking := tracking' } r k g.VoiceStates =
          needsAny guild r k g.VoiceStates := by
        simp only [needsAny, needsChange_unlinked_tracking guild tracking' r (hl r hu)]
      simp only [hn]
  · rw [handle_sent, handle_sent, hv]
    cases hu : verifyStore guild g k with
    | none => rfl
    | some r =>
      simp only [passDispatches_unlinked_tracking guild tracking' r (hl r hu)]
  · by_cases hmk : k = m.UserID
    · subst hmk
      rw [vsc_store_self, vsc_store_self, vsc_sent, vsc_sent, hv]
      cases hu : verifyStore guild g m.UserID with
      | none => exact ⟨rfl, rfl⟩
      | some r =>
        simp only [desired_unlinked_tracking guild tracking' r (hl r hu), true_and]
        rfl
    · rw [vsc_store_other _ g m k hmk, vsc_store_other _ g m k hmk]
      refine ⟨hv, ?_⟩
      rw [dispatchesFor_eq_nil_of_ne, dispatchesFor_eq_nil_of_ne]
      · intro d hd e
        exact hmk (by rw [← e]; exact vsc_sent_userID _ g m d hd)
      · intro d hd e
        exact hmk (by rw [← e]; exact vsc_sent_userID _ g m d hd)

/-- C10, on a run: the unlinked `u1` sits muted in the tracked channel `c1` during tasks; it
is unmuted, exactly as when no channel is tracked. -/
theorem unlinked_ignores_tracking_witness :
    dispatchesFor "u1" (handleTrackedMembers
        { sampleGuild Phase.TASKS false (guest false) with Tracking := fun _ => false }
        (snap true false) 7).sent =
      dispatchesFor "u1"
        (handleTrackedMembers (sampleGuild Phase.TASKS false (guest false)) (snap true false) 7).sent :=
  (unlinked_ignores_tracking (sampleGuild Phase.TASKS false (guest false)) (fun _ => false)
    (snap true false) 7 ⟨"u1", "c1", "g", true, false⟩ "u1"
    (by
      intro r hr
      simp only [sampleGuild, if_true, Option.some.injEq] at hr
      rw [← hr]
      rfl)).2.2.2.1

/-- C2, as stated, fails: with `ApplyNicknames` on and a stored nickname other than the
in-game name, the snapshot shows the state the rules ask for, so the second call confirms
the first call's dispatch and issues the same nickname dispatch again. -/
theorem second_call_dispatches_again :
    ((snap false false).VoiceStates.map (fun v => v.UserID)).Nodup ∧
      (handleTrackedMembers (sampleGuild Phase.LOBBY true (red false)) (snap false false) 0).sent =
        [{ guildID := "g", userID := "u1"
           params := { Deaf := false, Mute := false, Nick := "Red" }, delay := 0 }] ∧
      (handleTrackedMembers
        (handleTrackedMembers (sampleGuild Phase.LOBBY true (red false)) (snap false false) 0).guild
        (snap false false) 0).sent =
        [{ guildID := "g", userID := "u1"
           params := { Deaf := false, Mute := false, Nick := "Red" }, delay := 0 }] := by
  decide

/-- C2, amended: when no nickname sync is due for any user of the snapshot (`ApplyNicknames`
is off, or the in-game name is empty or equal to the stored nickname), calling
`handleTrackedMembers` twice in a row with the same snapshot, each user appearing at most
once, and the same phase issues no dispatch on the second call. -/
theorem second_call_silent (guild : GuildState) (g : Guild) (delay delay' : Int)
    (hnd : (g.VoiceStates.map (fun v => v.UserID)).Nodup)
    (hnick : ∀ v ∈ g.VoiceStates, ∀ r, guild.UserData v.UserID = some r →
      (guild.nickFor r != "" && r.GetNickName != r.GetPlayerName) = false) :
    (handleTrackedMembers (handleTrackedMembers guild g delay).guild g delay').sent = [] := by
  rw [List.eq_nil_iff_forall_not_mem]
  intro d hd
  obtain ⟨v, hv, r1, hr1, hp1, hn1, _, _⟩ :=
    handle_sent_mem (handleTrackedMembers guild g delay).guild g delay' d hd
  obtain ⟨r0, hr0⟩ := verifyStore_known guild g v hv
  have hstore := handle_store guild g delay v.UserID
  rw [hr0] at hstore
  simp only [needsAny_nodup guild r0 g.VoiceStates hnd v hv] at hstore
  rw [verifyStore_apply, hstore] at hr1
  simp only [Option.some.injEq] at hr1
  have hshow : showsDesired (handleTrackedMembers guild g delay).guild
      (r0.SetPendingVoiceUpdate (r0.pendingVoiceUpdate || needsChange guild r0 v)) v.UserID
        g.VoiceStates = !voiceDiffers guild r0 v.ChannelID v.Mute v.Deaf := by
    rw [showsDesired_nodup _ _ g.VoiceStates hnd v hv]
    exact showsDesired_eq_not_voiceDiffers guild r0 v
  rw [hshow] at hr1
  have hnd0 : nickDue guild r0 = false := nickDue_verifyStore guild g v.UserID r0 hr0 (hnick v hv)
  have hn0 : needsChange guild r0 v = true := by
    rw [← hr1] at hn1
    exact hn1
  rw [needsChange_split, hnd0, Bool.or_false] at hn0
  rw [← hr1] at hp1
  simp [setPending_pending, needsChange_split, hn0] at hp1

/-- C2, amended, on a run: with `ApplyNicknames` off, `u1` is muted once for the tasks phase
and the second call stays silent. -/
theorem second_call_silent_witness :
    (handleTrackedMembers
      (handleTrackedMembers (sampleGuild Phase.TASKS false (red false)) (snap false false) 7).guild
      (snap false false) 7).sent = [] :=
  second_call_silent (sampleGuild Phase.TASKS false (red false)) (snap false false) 7 7
    (by decide) (by intro v _ r _; rfl)

/-- C6 (scenario D): user `u` has a record that is not pending, the rules ask for `u` to be
muted, the snapshot names `u` and each of its entries for `u` reports, like the event, the
same channel, mute = false and the same deaf value. Then `handleTrackedMembers` followed at
once by `voiceStateChange` for `u` on the same snapshot issues exactly one dispatch for `u`
in total. -/
theorem back_to_back_one_dispatch (guild : GuildState) (g : Guild) (delay : Int)
    (m : VoiceStateUpdate) (r : UserData)
    (hr : guild.UserData m.UserID = some r) (hp : r.IsPendingVoiceUpdate = false)
    (hmute : (guild.VoiceRules r.IsAlive
      (guild.Tracking m.ChannelID && r.IsLinked) guild.Phase).1 = true)
    (_hm : m.Mute = false)
    (hex : ∃ v ∈ g.VoiceStates, v.UserID = m.UserID)
    (hall : ∀ v ∈ g.VoiceStates, v.UserID = m.UserID →
      v.ChannelID = m.ChannelID ∧ v.Mute = false ∧ v.Deaf = m.Deaf) :
    (dispatchesFor m.UserID ((handleTrackedMembers guild g delay).sent ++
      (voiceStateChange (handleTrackedMembers guild g delay).guild g m).sent)).length = 1 := by
  have hp' : r.pendingVoiceUpdate = false := hp
  have hdes : ∀ v ∈ g.VoiceStates, v.UserID = m.UserID →
      (guild.desired r v.ChannelID).1 = true ∧ v.Mute = false := by
    intro v hv hvk
    obtain ⟨hc, hvm, _⟩ := hall v hv hvk
    rw [hc]
    exact ⟨hmute, hvm⟩
  have hneed : ∀ v ∈ g.VoiceStates, v.UserID = m.UserID → needsChange guild r v = true := by
    intro v hv hvk
    obtain ⟨h1, h2⟩ := hdes v hv hvk
    simp [needsChange, h1, h2]
  have hver : verifyStore guild g m.UserID = some r := by
    rw [verifyStore_apply, hr]
    simp only [hp', Bool.false_and, Option.some.injEq]
    exact setPending_self r false hp'
  -- the full pass dispatches once
  have hsent := handle_sent guild g delay m.UserID
  rw [hver] at hsent
  have hfirst : ∃ w, firstNeeding guild r m.UserID g.VoiceStates = some w := by
    cases hf : firstNeeding guild r m.UserID g.VoiceStates with
    | some w => exact ⟨w, rfl⟩
    | none =>
      obtain ⟨v, hv, hvk⟩ := hex
      have := firstNeeding_none guild r m.UserID g.VoiceStates hf v hv hvk
      rw [hneed v hv hvk] at this
      cases this
  obtain ⟨w, hw⟩ := hfirst
  simp only [passDispatches, hp', hw, Bool.false_eq_true, if_false] at hsent
  -- and leaves the record pending
  have hstore := handle_store guild g delay m.UserID
  rw [hver] at hstore
  have hany : needsAny guild r m.UserID g.VoiceStates = true := by
    obtain ⟨v, hv, hvk⟩ := hex
    simp only [needsAny, List.any_eq_true]
    exact ⟨v, hv, by simp [hvk, hneed v hv hvk]⟩
  simp only [hany, Bool.or_true] at hstore
  -- so the confirmation step of the event keeps the flag and the event dispatches nothing
  have hshow : showsDesired (handleTrackedMembers guild g delay).guild
      (r.SetPendingVoiceUpdate true) m.UserID g.VoiceStates = false := by
    simp only [showsDesired, List.any_eq_false]
    intro v hv
    by_cases hvk : v.UserID = m.UserID
    · obtain ⟨h1, h2⟩ := hdes v hv hvk
      have h1' : ((handleTrackedMembers guild g delay).guild.desired
          (r.SetPendingVoiceUpdate true) v.ChannelID).1 = true := h1
      simp [h1', h2]
    · simp [hvk]
  have hver2 : verifyStore (handleTrackedMembers guild g delay).guild g m.UserID =
      some (r.SetPendingVoiceUpdate true) := by
    rw [verifyStore_apply, hstore]
    simp only [hshow, setPending_pending, Bool.not_false, Bool.and_true, setPending_setPending]
  have hev := vsc_sent_pending (handleTrackedMembers guild g delay).guild g m
    (r.SetPendingVoiceUpdate true) hver2 rfl
  rw [hev, List.append_nil, hsent]
  rfl

/-- C6, on a run: `u1` is unmuted in the tracked channel during tasks; the full pass mutes
it and the event that follows does nothing. -/
theorem back_to_back_one_dispatch_witness :
    (dispatchesFor "u1"
      ((handleTrackedMembers (sampleGuild Phase.TASKS false (red false)) (snap false false) 7).sent ++
        (voiceStateChange
          (handleTrackedMembers (sampleGuild Phase.TASKS false (red false))
            (snap false false) 7).guild
          (snap false false) ⟨"u1", "c1", "g", false, false⟩).sent)).length = 1 :=
  back_to_back_one_dispatch (sampleGuild Phase.TASKS false (red false)) (snap false false) 7
    ⟨"u1", "c1", "g", false, false⟩ (red false) rfl rfl rfl rfl
    ⟨⟨"u1", "c1", false, false⟩, by decide, rfl⟩
    (by
      intro v hv _
      simp only [snap, List.mem_singleton] at hv
      subst hv
      exact ⟨rfl, rfl, rfl⟩)

/-- C7, as stated, fails: `ApplyNicknames` is on, the snapshot is the event's single entry
and shows the state the rules ask for, and only the stored nickname differs from the
in-game name. `handleTrackedMembers` with delay 0 dispatches the nickname and leaves the
record pending; `voiceStateChange` dispatches nothing and leaves it not pending. -/
theorem event_skips_nickname_sync :
    (snap false false).VoiceStates = [VoiceStateUpdate.entry ⟨"u1", "c1", "g", false, false⟩] ∧
      (handleTrackedMembers (sampleGuild Phase.LOBBY true (red false)) (snap false false) 0).sent =
        [{ guildID := "g", userID := "u1"
           params := { Deaf := false, Mute := false, Nick := "Red" }, delay := 0 }] ∧
      (voiceStateChange (sampleGuild Phase.LOBBY true (red false)) (snap false false)
        ⟨"u1", "c1", "g", false, false⟩).sent = [] ∧
      isPending (handleTrackedMembers (sampleGuild Phase.LOBBY true (red false))
        (snap false false) 0).guild.UserData "u1" = true ∧
      isPending (voiceStateChange (sampleGuild Phase.LOBBY true (red false)) (snap false false)
        ⟨"u1", "c1", "g", false, false⟩).guild.UserData "u1" = false := by
  decide

/-- C7, amended: when the snapshot consists of exactly the event's entry and no nickname
sync is due for the event's user (`ApplyNicknames` is off, or the in-game name is empty or
equal to the stored nickname), `voiceStateChange` and `handleTrackedMembers` with delay 0
issue the same dispatches (user, mute, deaf, nickname, delay), leave the same store and edit
the state message equally often. -/
theorem event_agrees_with_full_pass (guild : GuildState) (g : Guild) (m : VoiceStateUpdate)
    (hg : g.VoiceStates = [m.entry])
    (hnick : ∀ r, guild.UserData m.UserID = some r →
      (guild.nickFor r != "" && r.GetNickName != r.GetPlayerName) = false) :
    (voiceStateChange guild g m).sent.map Dispatch.payload =
        (handleTrackedMembers guild g 0).sent.map Dispatch.payload ∧
      (voiceStateChange guild g m).guild.UserData =
        (handleTrackedMembers guild g 0).guild.UserData ∧
      (voiceStateChange guild g m).edits = (handleTrackedMembers guild g 0).edits := by
  have hmem : m.entry ∈ g.VoiceStates := by rw [hg]; exact List.mem_singleton_self _
  obtain ⟨r0, hr0⟩ := verifyStore_known guild g m.entry hmem
  have hr0' : verifyStore guild g m.UserID = some r0 := hr0
  have hnd : nickDue guild r0 = false := nickDue_verifyStore guild g m.UserID r0 hr0' hnick
  have hneed : needsChange guild r0 m.entry = voiceDiffers guild r0 m.ChannelID m.Mute m.Deaf := by
    rw [needsChange_split, hnd, Bool.or_false]
    rfl
  have hstep := handleStep_some guild g 0
    { UserData := verifyStore guild g, updateMade := false, sent := [] } m.entry r0 hr0
  have hfull : handleLoop guild g 0 (verifyStore guild g) =
      handleStep guild g 0 { UserData := verifyStore guild g, updateMade := false, sent := [] }
        m.entry := by
    unfold handleLoop
    rw [hg]
    rfl
  unfold handleTrackedMembers voiceStateChange
  simp only [hfull, hstep, hneed, UserDataSet.GetUser, hr0', UserData.IsPendingVoiceUpdate]
  by_cases hp : r0.pendingVoiceUpdate = true
  · simp [hp]
  · have hp' : r0.pendingVoiceUpdate = false := by simpa using hp
    cases hv : voiceDiffers guild r0 m.ChannelID m.Mute m.Deaf with
    | false =>
      have hv' : ((guild.desired r0 m.ChannelID).1 != m.Mute
          || (guild.desired r0 m.ChannelID).2 != m.Deaf) = false := hv
      simp [hp', hv']
    | true =>
      have hv' : ((guild.desired r0 m.ChannelID).1 != m.Mute
          || (guild.desired r0 m.ChannelID).2 != m.Deaf) = true := hv
      simp only [hp', hv', Bool.not_false, Bool.and_self, if_true, List.nil_append,
        List.map_cons, List.map_nil, and_true, true_and]
      exact ⟨rfl, rfl⟩

/-- C7, amended, on a run: with `ApplyNicknames` off the event and the full pass both mute
`u1` for the tasks phase. -/
theorem event_agrees_with_full_pass_witness :
    (voiceStateChange (sampleGuild Phase.TASKS false (red false)) (snap false false)
        ⟨"u1", "c1", "g", false, false⟩).sent.map Dispatch.payload =
      (handleTrackedMembers (sampleGuild Phase.TASKS false (red false)) (snap false false)
        0).sent.map Dispatch.payload :=
  (event_agrees_with_full_pass (sampleGuild Phase.TASKS false (red false)) (snap false false)
    ⟨"u1", "c1", "g", false, false⟩ rfl (by intro r _; rfl)).1

/-- C5, as stated, fails once the phase changes: during tasks `u1` is dispatched (mute =
true, deaf = false) and is pending. The phase becomes lobby. A pass whose snapshot shows
(false, false), not the dispatched values, leaves the flag false; and a pass whose snapshot
does show the dispatched (true, false) leaves the flag true. -/
theorem pending_flag_ignores_dispatched_target :
    (handleTrackedMembers (sampleGuild Phase.TASKS false (red false)) (snap false false) 7).sent =
        [{ guildID := "g", userID := "u1"
           params := { Deaf := false, Mute := true, Nick := "" }, delay := 7 }] ∧
      isPending (handleTrackedMembers (sampleGuild Phase.TASKS false (red false))
        (snap false false) 7).guild.UserData "u1" = true ∧
      isPending (handleTrackedMembers
        { (handleTrackedMembers (sampleGuild Phase.TASKS false (red false))
            (snap false false) 7).guild with Phase := Phase.LOBBY }
        (snap false false) 0).guild.UserData "u1" = false ∧
      isPending (handleTrackedMembers
        { (handleTrackedMembers (sampleGuild Phase.TASKS false (red false))
            (snap false false) 7).guild with Phase := Phase.LOBBY }
        (snap true false) 0).guild.UserData "u1" = true := by
  decide

/-- C5, amended: for a user whose record is pending when a pass (`handleTrackedMembers` or
`voiceStateChange`) begins, the values that count are those `GetVoiceState` yields for the
user at that pass, with the phase, link and tracking set of that moment. If no snapshot
entry of the user shows them, the flag is still true after the confirmation step and after
the pass. If some entry shows them, the confirmation step clears the flag, and after the
pass the flag is true exactly when the pass itself issued a new dispatch for the user. -/
theorem pending_follows_current_desired (guild : GuildState) (g : Guild) (delay : Int)
    (m : VoiceStateUpdate) (k : String) (r : UserData)
    (hr : guild.UserData k = some r) (hp : r.IsPendingVoiceUpdate = true) :
    ((∀ v ∈ g.VoiceStates, v.UserID = k →
        ¬ (v.Mute = (guild.VoiceRules r.IsAlive
              (guild.Tracking v.ChannelID && r.IsLinked) guild.Phase).1 ∧
           v.Deaf = (guild.VoiceRules r.IsAlive
              (guild.Tracking v.ChannelID && r.IsLinked) guild.Phase).2)) →
      isPending (verifyVoiceStateChanges guild g).UserData k = true ∧
        isPending (handleTrackedMembers guild g delay).guild.UserData k = true ∧
        isPending (voiceStateChange guild g m).guild.UserData k = true) ∧
    ((∃ v ∈ g.VoiceStates, v.UserID = k ∧
        v.Mute = (guild.VoiceRules r.IsAlive
              (guild.Tracking v.ChannelID && r.IsLinked) guild.Phase).1 ∧
        v.Deaf = (guild.VoiceRules r.IsAlive
              (guild.Tracking v.ChannelID && r.IsLinked) guild.Phase).2) →
      isPending (verifyVoiceStateChanges guild g).UserData k = false ∧
        (isPending (handleTrackedMembers guild g delay).guild.UserData k = true ↔
          ∃ d ∈ (handleTrackedMembers guild g delay).sent, d.userID = k) ∧
        (isPending (voiceStateChange guild g m).guild.UserData k = true ↔
          ∃ d ∈ (voiceStateChange guild g m).sent, d.userID = k)) := by
  have hp' : r.pendingVoiceUpdate = true := hp
  have hver := verifyStore_apply guild g k
  rw [hr] at hver
  simp only [hp', Bool.true_and] at hver
  constructor
  · intro hno
    have hshow : showsDesired guild r k g.VoiceStates = false := by
      simp only [showsDesired, List.any_eq_false]
      intro v hv
      by_cases hvk : v.UserID = k
      · have := hno v hv hvk
        simp only [GuildState.desired]
        intro hc
        simp only [Bool.and_eq_true, beq_iff_eq] at hc
        exact this ⟨hc.1.2, hc.2⟩
      · simp [hvk]
    rw [hshow] at hver
    have hver' : verifyStore guild g k = some (r.SetPendingVoiceUpdate true) := hver
    refine ⟨?_, ?_, ?_⟩
    · show isPending (verifyStore guild g) k = true
      rw [isPending, hver']
      rfl
    · rw [isPending, handle_store, hver']
      rfl
    · by_cases hk : k = m.UserID
      · subst hk
        rw [isPending, vsc_store_self, hver']
        rfl
      · rw [isPending, vsc_store_other guild g m k hk, hver']
        rfl
  · rintro ⟨v, hv, hvk, hm, hd⟩
    have hshow : showsDesired guild r k g.VoiceStates = true := by
      simp only [showsDesired, List.any_eq_true]
      refine ⟨v, hv, ?_⟩
      simp only [GuildState.desired, Bool.and_eq_true, beq_iff_eq]
      exact ⟨⟨hvk, hm⟩, hd⟩
    rw [hshow] at hver
    have hver' : verifyStore guild g k = some (r.SetPendingVoiceUpdate false) := hver
    refine ⟨?_, ?_, ?_⟩
    · show isPending (verifyStore guild g) k = false
      rw [isPending, hver']
      rfl
    · exact handle_pending_iff_sent guild g delay k _ hver' rfl
    · exact vsc_pending_iff_sent guild g m k _ hver' rfl

/-- C5, amended, on a run: `u1` is pending and unmuted during tasks; the pass keeps the flag. -/
theorem pending_follows_current_desired_witness :
    isPending (handleTrackedMembers (sampleGuild Phase.TASKS false (red true))
      (snap false false) 7).guild.UserData "u1" = true :=
  ((pending_follows_current_desired (sampleGuild Phase.TASKS false (red true)) (snap false false)
    7 ⟨"u1", "c1", "g", false, false⟩ "u1" (red true) rfl rfl).1
    (by
      intro v hv _
      simp only [snap, List.mem_singleton] at hv
      subst hv
      decide)).2.1

/-- C1, as stated, fails once the phase changes between steps: starting with nobody
pending, `u1` is dispatched (mute = true) during tasks; in the discussion the snapshot shows
`u1` unmuted, which is what the rules then ask for, so the flag is cleared; back in tasks
the snapshot still shows `u1` unmuted and a second dispatch is issued. No snapshot has shown
mute = true, so two dispatches for `u1` are unconfirmed. -/
theorem two_unconfirmed_after_phase_changes :
    (∀ k, isPending (sampleGuild Phase.TASKS false (red false)).UserData k = false) ∧
      dispatchesFor "u1" (tasksDiscussTasks.foldl stepCarried
        { guild := sampleGuild Phase.TASKS false (red false), unconfirmed := [] }).unconfirmed =
        [{ guildID := "g", userID := "u1"
           params := { Deaf := false, Mute := true, Nick := "" }, delay := 7 },
         { guildID := "g", userID := "u1"
           params := { Deaf := false, Mute := true, Nick := "" }, delay := 7 }] := by
  constructor
  · intro k
    by_cases hk : k = "u1"
    · subst hk
      rfl
    · simp [isPending, sampleGuild, hk]
  · decide

/-- C1, amended: in the sequential step model (each step a change of phase, tracking set
and links followed by `handleTrackedMembers` or `voiceStateChange`), starting from any store
and no dispatch issued yet, after every finite sequence of steps every user has at most one
unconfirmed dispatch, where a dispatch is confirmed once a later processed snapshot shows,
for its user, the (mute, deaf) values `GetVoiceState` yields for that user at that pass. -/
theorem at_most_one_unconfirmed (guild : GuildState) (steps : List Step) (k : String) :
    (dispatchesFor k
      (steps.foldl stepCurrent { guild := guild, unconfirmed := [] }).unconfirmed).length ≤ 1 := by
  have hgen : ∀ (steps : List Step) (s : Run),
      (∀ k, (dispatchesFor k s.unconfirmed).length ≤
        (if isPending s.guild.UserData k = true then 1 else 0)) →
      ∀ k, (dispatchesFor k (steps.foldl stepCurrent s).unconfirmed).length ≤
        (if isPending (steps.foldl stepCurrent s).guild.UserData k = true then 1 else 0) := by
    intro steps
    induction steps with
    | nil => intro s hs; exact hs
    | cons st rest ih =>
      intro s hs
      rw [List.foldl_cons]
      exact ih (stepCurrent s st) (stepCurrent_invariant s st hs)
  have h := hgen steps { guild := guild, unconfirmed := [] }
    (by intro j; simp [dispatchesFor]) k
  refine Nat.le_trans h ?_
  split <;> simp

/-- C11: the table of `MakeDefaultDelays` has an explicit entry for each of the nine ordered
pairs of phases, `GetDelay` on it is never negative, and the values are 6 for
discussion to lobby, 7 for lobby to tasks and for discussion to tasks, 1 for tasks to lobby,
and 0 for the five other pairs, every pair with equal origin and destination among them. -/
theorem default_delays_table :
    (∀ origin dest : Phase, ∃ row d, MakeDefaultDelays.delays.lookup origin = some row ∧
        row.lookup dest = some d) ∧
      (∀ origin dest : Phase, 0 ≤ MakeDefaultDelays.GetDelay origin dest) ∧
      MakeDefaultDelays.GetDelay Phase.DISCUSS Phase.LOBBY = 6 ∧
      MakeDefaultDelays.GetDelay Phase.LOBBY Phase.TASKS = 7 ∧
      MakeDefaultDelays.GetDelay Phase.DISCUSS Phase.TASKS = 7 ∧
      MakeDefaultDelays.GetDelay Phase.TASKS Phase.LOBBY = 1 ∧
      MakeDefaultDelays.GetDelay Phase.LOBBY Phase.LOBBY = 0 ∧
      MakeDefaultDelays.GetDelay Phase.LOBBY Phase.DISCUSS = 0 ∧
      MakeDefaultDelays.GetDelay Phase.TASKS Phase.TASKS = 0 ∧
      MakeDefaultDelays.GetDelay Phase.TASKS Phase.DISCUSS = 0 ∧
      MakeDefaultDelays.GetDelay Phase.DISCUSS Phase.DISCUSS = 0 := by
  refine ⟨?_, ?_, by decide, by decide, by decide, by decide, by decide, by decide, by decide,
    by decide, by decide⟩
  · intro origin dest
    cases origin <;> cases dest <;> exact ⟨_, _, rfl, rfl⟩
  · intro origin dest
    cases origin <;> cases dest <;> decide

/-- C13: `GetDelay` is a total function of the table and the pair: it yields 0 when the
origin has no row, 0 when the origin's row has no entry for the destination, and the stored
value when the entry is there. -/
theorem getDelay_total (gd : GameDelays) (origin dest : Phase) :
    (gd.delays.lookup origin = none → gd.GetDelay origin dest = 0) ∧
      (∀ row, gd.delays.lookup origin = some row → row.lookup dest = none →
        gd.GetDelay origin dest = 0) ∧
      (∀ row d, gd.delays.lookup origin = some row → row.lookup dest = some d →
        gd.GetDelay origin dest = d) := by
  refine ⟨?_, ?_, ?_⟩
  · intro h
    simp [GameDelays.GetDelay, h]
  · intro row h1 h2
    simp [GameDelays.GetDelay, h1, h2]
  · intro row d h1 h2
    simp [GameDelays.GetDelay, h1, h2]

/-- C15: `addFullUserToMap` writes the entry of the given user id and no other: the full
record built from the first member with that id, carrying that member's nick, when there is
one, and the minimal record with the id alone when there is none. After
`verifyVoiceStateChanges`, after `handleTrackedMembers` and after `voiceStateChange`, every
user id of the snapshot has a record. None of these functions has an error result. -/
theorem unknown_user_gets_one_record (uds : UserDataSet) (g : Guild) (userID : String)
    (guild : GuildState) (delay : Int) (m : VoiceStateUpdate) :
    (∀ k, ¬ k = userID → addFullUserToMap uds g userID k = uds k) ∧
      (∀ pre v post, g.Members = pre ++ v :: post → v.ID = userID →
        (∀ w ∈ pre, ¬ w.ID = userID) →
          addFullUserToMap uds g userID userID =
            some (MakeUserDataFromDiscordUser userID v.Username v.Nick)) ∧
      ((∀ w ∈ g.Members, ¬ w.ID = userID) →
        addFullUserToMap uds g userID userID = some (MakeMinimalUserData userID)) ∧
      (∀ v ∈ g.VoiceStates,
        (∃ r, (verifyVoiceStateChanges guild g).UserData v.UserID = some r) ∧
        (∃ r, (handleTrackedMembers guild g delay).guild.UserData v.UserID = some r) ∧
        (∃ r, (voiceStateChange guild g m).guild.UserData v.UserID = some r)) := by
  refine ⟨?_, ?_, ?_, ?_⟩
  · intro k hk
    rw [addFullUserToMap_apply, if_neg hk]
  · intro pre v post hm hv hpre
    rw [addFullUserToMap_apply, if_pos rfl]
    simp only [freshUser, hm, findMember_first pre post v userID hv hpre, hv]
  · intro hno
    rw [addFullUserToMap_apply, if_pos rfl]
    simp only [freshUser, findMember_absent g.Members userID hno]
  · intro v hv
    obtain ⟨r, hr⟩ := verifyStore_known guild g v hv
    refine ⟨⟨r, hr⟩, ?_, ?_⟩
    · rw [handle_store, hr]
      exact ⟨_, rfl⟩
    · by_cases hk : v.UserID = m.UserID
      · rw [hk, vsc_store_self]
        cases verifyStore guild g m.UserID with
        | none => exact ⟨_, rfl⟩
        | some r' => exact ⟨_, rfl⟩
      · rw [vsc_store_other guild g m v.UserID hk]
        exact ⟨r, hr⟩

/-- C16: one invocation of `handleTrackedMembers`, and likewise of `voiceStateChange`, edits
the state message once if it issued a dispatch and not at all if it issued none. -/
theorem state_message_edits (guild : GuildState) (g : Guild) (delay : Int)
    (m : VoiceStateUpdate) :
    (handleTrackedMembers guild g delay).edits =
        (if (handleTrackedMembers guild g delay).sent = [] then 0 else 1) ∧
      (voiceStateChange guild g m).edits =
        (if (voiceStateChange guild g m).sent = [] then 0 else 1) := by
  constructor
  · have h := handleFold_updateMade guild g delay g.VoiceStates
      { UserData := verifyStore guild g, updateMade := false, sent := [] } (by simp)
    show (if (handleLoop guild g delay (verifyStore guild g)).updateMade = true then 1 else 0) =
      if (handleLoop guild g delay (verifyStore guild g)).sent = [] then 0 else 1
    unfold handleLoop
    by_cases hs : (g.VoiceStates.foldl (handleStep guild g delay)
        { UserData := verifyStore guild g, updateMade := false, sent := [] }).sent = []
    · have hu : ¬ (g.VoiceStates.foldl (handleStep guild g delay)
          { UserData := verifyStore guild g, updateMade := false, sent := [] }).updateMade = true :=
        fun e => (h.mp e) hs
      rw [if_neg hu, if_pos hs]
    · rw [if_pos (h.mpr hs), if_neg hs]
  · rw [vsc_edits, vsc_sent]
    cases verifyStore guild g m.UserID with
    | none => rfl
    | some r =>
      simp only
      split <;> simp

/-- C17: after `handleTrackedMembers`, for every snapshot entry and the record its user
then has, if the entry's (mute, deaf) is not what `GetVoiceState` yields for that record in
the entry's channel, the record is pending. -/
theorem wrong_state_is_pending (guild : GuildState) (g : Guild) (delay : Int) :
    ∀ v ∈ g.VoiceStates, ∀ r,
      (handleTrackedMembers guild g delay).guild.UserData v.UserID = some r →
      ¬ (v.Mute = (guild.VoiceRules r.IsAlive
            (guild.Tracking v.ChannelID && r.IsLinked) guild.Phase).1 ∧
         v.Deaf = (guild.VoiceRules r.IsAlive
            (guild.Tracking v.ChannelID && r.IsLinked) guild.Phase).2) →
      r.IsPendingVoiceUpdate = true := by
  intro v hv r hr hne
  obtain ⟨r0, hr0⟩ := verifyStore_known guild g v hv
  rw [handle_store, hr0] at hr
  simp only [Option.some.injEq] at hr
  rw [← hr] at hne ⊢
  have hneed : needsChange guild r0 v = true := by
    have hd : voiceDiffers guild r0 v.ChannelID v.Mute v.Deaf = true := by
      simp only [voiceDiffers, GuildState.desired]
      by_contra hc
      simp only [Bool.not_eq_true, Bool.or_eq_false_iff, bne_eq_false_iff_eq] at hc
      exact hne ⟨hc.1.symm, hc.2.symm⟩
    rw [needsChange_split, hd, Bool.true_or]
  have hany : needsAny guild r0 v.UserID g.VoiceStates = true := by
    simp only [needsAny, List.any_eq_true]
    exact ⟨v, hv, by simp [hneed]⟩
  simp [UserData.IsPendingVoiceUpdate, setPending_pending, hany]

/-- C18: `verifyVoiceStateChanges`, `handleTrackedMembers` and `voiceStateChange` leave the
guild id, the tracking set, the delay table, the phase, the rules and `ApplyNicknames` as
they were, keep every record with its link, aliveness and names (only its pending flag may
differ), and leave the entry of every user that neither the snapshot nor the event names
as it was; what they add is records for users that had none. -/
theorem passes_change_only_pending (guild : GuildState) (g : Guild) (delay : Int)
    (m : VoiceStateUpdate) :
    onlyPendingChanged guild (verifyVoiceStateChanges guild g)
        (fun k => ∃ v ∈ g.VoiceStates, v.UserID = k) ∧
      onlyPendingChanged guild (handleTrackedMembers guild g delay).guild
        (fun k => ∃ v ∈ g.VoiceStates, v.UserID = k) ∧
      onlyPendingChanged guild (voiceStateChange guild g m).guild
        (fun k => (∃ v ∈ g.VoiceStates, v.UserID = k) ∨ k = m.UserID) := by
  have habs : ∀ k, ¬ (∃ v ∈ g.VoiceStates, v.UserID = k) → ∀ v ∈ g.VoiceStates, ¬ v.UserID = k :=
    fun k hk v hv e => hk ⟨v, hv, e⟩
  have hfields : ∀ o : Outcome, (∃ u, o.guild = { guild with UserData := u }) →
      o.guild.ID = guild.ID ∧ o.guild.Tracking = guild.Tracking ∧
        o.guild.Delays = guild.Delays ∧ o.guild.Phase = guild.Phase ∧
        o.guild.VoiceRules = guild.VoiceRules ∧
        o.guild.ApplyNicknames = guild.ApplyNicknames := by
    rintro o ⟨u, hu⟩
    rw [hu]
    exact ⟨rfl, rfl, rfl, rfl, rfl, rfl⟩
  refine ⟨⟨rfl, rfl, rfl, rfl, rfl, rfl, ?_, ?_⟩, ?_, ?_⟩
  · intro k r hr
    exact verifyStore_keeps guild g k r hr
  · intro k hk
    exact verifyStore_absent guild g k (habs k hk)
  · obtain ⟨h1, h2, h3, h4, h5, h6⟩ := hfields (handleTrackedMembers guild g delay) ⟨_, rfl⟩
    refine ⟨h1, h2, h3, h4, h5, h6, ?_, ?_⟩
    · intro k r hr
      obtain ⟨b, hb⟩ := verifyStore_keeps guild g k r hr
      rw [handle_store, hb]
      exact ⟨_, rfl⟩
    · intro k hk
      rw [handle_store, verifyStore_absent guild g k (habs k hk)]
      cases hu : guild.UserData k with
      | none => rfl
      | some r =>
        simp only [needsAny_absent guild r k g.VoiceStates (habs k hk), Bool.or_false]
        rfl
  · have hform : ∃ u, (voiceStateChange guild g m).guild = { guild with UserData := u } := by
      unfold voiceStateChange
      simp only [UserDataSet.GetUser]
      split
      · split <;> exact ⟨_, rfl⟩
      · exact ⟨_, rfl⟩
    obtain ⟨h1, h2, h3, h4, h5, h6⟩ := hfields (voiceStateChange guild g m) hform
    refine ⟨h1, h2, h3, h4, h5, h6, ?_, ?_⟩
    · intro k r hr
      obtain ⟨b, hb⟩ := verifyStore_keeps guild g k r hr
      by_cases hk : k = m.UserID
      · subst hk
        rw [vsc_store_self, hb]
        exact ⟨_, rfl⟩
      · rw [vsc_store_other guild g m k hk, hb]
        exact ⟨_, rfl⟩
    · intro k hk
      have hk1 : ¬ (∃ v ∈ g.VoiceStates, v.UserID = k) := fun e => hk (Or.inl e)
      have hk2 : ¬ k = m.UserID := fun e => hk (Or.inr e)
      rw [vsc_store_other guild g m k hk2]
      exact verifyStore_absent guild g k (habs k hk1)

/-- C17, on a run: `u1` is seen unmuted during tasks; after the pass its record is pending. -/
theorem wrong_state_is_pending_witness :
    ∃ r, (handleTrackedMembers (sampleGuild Phase.TASKS false (red false))
        (snap false false) 7).guild.UserData "u1" = some r ∧ r.IsPendingVoiceUpdate = true :=
  ⟨red true, by decide,
    wrong_state_is_pending (sampleGuild Phase.TASKS false (red false)) (snap false false) 7
      ⟨"u1", "c1", false, false⟩ (by decide) (red true) (by decide) (by decide)⟩

/-- C12: after `clearGameTracking`, from every prior state, the phase is lobby, no channel is
tracked and no record remains in the store, so none is linked; and the
`handleTrackedMembers` pass run right after it evaluates every snapshot entry with the
tracked argument false: the record of every snapshot user is unlinked in an untracked
channel, and every dispatch carries what `GetVoiceState` yields for tracked = false in the
lobby. -/
theorem clearGameTracking_resets (guild : GuildState) (g : Guild) (delay : Int) :
    (clearGameTracking guild).Phase = Phase.LOBBY ∧
      (∀ c, (clearGameTracking guild).Tracking c = false) ∧
      (∀ k, (clearGameTracking guild).UserData k = none) ∧
      (∀ v ∈ g.VoiceStates,
        ∃ r, (verifyVoiceStateChanges (clearGameTracking guild) g).UserData v.UserID = some r ∧
          r.IsLinked = false ∧
          ((clearGameTracking guild).Tracking v.ChannelID && r.IsLinked) = false) ∧
      (∀ d ∈ (handleTrackedMembers (clearGameTracking guild) g delay).sent,
        ∃ r : UserData, (d.params.Mute, d.params.Deaf) =
          guild.VoiceRules r.IsAlive false Phase.LOBBY) := by
  refine ⟨rfl, fun _ => rfl, fun _ => rfl, ?_, ?_⟩
  · intro v hv
    obtain ⟨r, hr⟩ := verifyStore_known (clearGameTracking guild) g v hv
    refine ⟨r, hr, ?_, rfl⟩
    exact (verifyStore_unlinked_tracking (clearGameTracking guild)
      (clearGameTracking guild).Tracking g v.UserID (fun r' hr' => by cases hr')).2 r hr
  · exact untracked_dispatches (clearGameTracking guild) g delay (fun _ => rfl)

/-- C14, the failing run: `u1` is linked, alive, not pending and seen unmuted in the tracked
channel during tasks. `handleTrackedMembers` reads the record at line 97; before it goes
on, `voiceStateChange` for `u1` runs lines 179 to 199, sets the flag in the store and
dispatches. `handleTrackedMembers` then goes on with the copy it read, which is not
pending, and dispatches too. Had it read after the write, it would have dispatched
nothing. -/
theorem stale_read_dispatches_twice :
    (voiceStateChange (sampleGuild Phase.TASKS false (red false)) (snap false false)
        ⟨"u1", "c1", "g", false, false⟩).sent =
        [{ guildID := "g", userID := "u1"
           params := { Deaf := false, Mute := true, Nick := "" }, delay := 0 }] ∧
      (handleDecide (sampleGuild Phase.TASKS false (red false)) (snap false false) 7
        { UserData := (voiceStateChange (sampleGuild Phase.TASKS false (red false))
            (snap false false) ⟨"u1", "c1", "g", false, false⟩).guild.UserData
          updateMade := false, sent := [] }
        ⟨"u1", "c1", false, false⟩
        ((verifyStore (sampleGuild Phase.TASKS false (red false)) (snap false false)).GetUser
          "u1")).sent =
        [{ guildID := "g", userID := "u1"
           params := { Deaf := false, Mute := true, Nick := "" }, delay := 7 }] ∧
      (handleStep (sampleGuild Phase.TASKS false (red false)) (snap false false) 7
        { UserData := (voiceStateChange (sampleGuild Phase.TASKS false (red false))
            (snap false false) ⟨"u1", "c1", "g", false, false⟩).guild.UserData
          updateMade := false, sent := [] }
        ⟨"u1", "c1", false, false⟩).sent = [] := by
  decide

end Discord
